import Mathlib

/-!
Verification development for the `paste-browser` repository (Next.js edition).

The definitions below are a shallow embedding of the TypeScript sources:

* `src/src/utils/validation.ts` — `validateUrl`, `sanitizeUrl` and the
  `VALIDATION_PATTERNS.URL` regex from `src/utils/constants.ts`;
* `src/src/app/api/claude/analyze/route.ts` — the `POST /api/claude/analyze`
  handler (the route as defined at the top of that file; the file also carries
  a later variant of the handler with the credential check hoisted before URL
  validation, and the `GET` handlers for `/api/mcp/servers` and
  `/api/mcp/tools`);
* `src/src/components/GenerativeMCPApp.tsx` — the client view-state machine
  (tabs, navigation, tool selection, form data, simulated execution).

JavaScript idioms are embedded explicitly: string falsiness (`x || d`) is the
empty-string test, object member access is association-list lookup returning
`Option` (`none` models `undefined`), `JSON.parse` is a small executable JSON
parser over a `Json` inductive, and React `setState(prev => ...)` updater
chains are composed as pure state transformers.  Purely presentational state
(`showSuggestions`, `authState`, `isAnalyzing`, icons as React elements) is
modelled only where a claim depends on it; icons are modelled by their
component name as a string.
-/

/-! ## JavaScript string helpers -/

/-- The whitespace class trimmed by JavaScript `String.prototype.trim`
(ASCII whitespace, NBSP, the Unicode space separators, line/paragraph
separators and the BOM). -/
def isJsWhitespace (c : Char) : Bool :=
  c = ' ' || c = '\t' || c = '\n' || c = '\r' || c = '\x0b' || c = '\x0c' ||
  c.toNat = 0xA0 || c.toNat = 0x1680 || (0x2000 ≤ c.toNat && c.toNat ≤ 0x200A) ||
  c.toNat = 0x2028 || c.toNat = 0x2029 || c.toNat = 0x202F || c.toNat = 0x205F ||
  c.toNat = 0x3000 || c.toNat = 0xFEFF

/-- Remove trailing JS whitespace from a character list. -/
def trimRightL (l : List Char) : List Char :=
  (l.reverse.dropWhile isJsWhitespace).reverse

/-- Remove leading and trailing JS whitespace from a character list. -/
def trimL (l : List Char) : List Char :=
  trimRightL (l.dropWhile isJsWhitespace)

/-- JavaScript `url.trim()`. -/
def jsTrim (s : String) : String :=
  String.mk (trimL s.toList)

/-- JavaScript `s || d` for strings: `""` (and an absent value, which the
embedding folds into `""`) is falsy. -/
def jsOrS (s d : String) : String :=
  if s = "" then d else s

/-! ## `validateUrl` and `sanitizeUrl` (src/utils/validation.ts) -/

/-- The test of the regex `/^https?:\/\//` used by `sanitizeUrl`. -/
def schemeTest (t : String) : Bool :=
  "https://".toList.isPrefixOf t.toList || "http://".toList.isPrefixOf t.toList

/-- Characters the regex metacharacter `.` does not match (line
terminators). -/
def isLineTerm (c : Char) : Bool :=
  c = '\n' || c = '\r' || c.toNat = 0x2028 || c.toNat = 0x2029

/-- Whether `.+` matches at the start of the remainder: at least one
character, whose first is not a line terminator. -/
def restOk : List Char → Bool
  | [] => false
  | c :: _ => !(isLineTerm c)

/-- The test of `VALIDATION_PATTERNS.URL = /^https?:\/\/.+/`. -/
def urlPatternTest (t : String) : Bool :=
  if "https://".toList.isPrefixOf t.toList then restOk (t.toList.drop 8)
  else if "http://".toList.isPrefixOf t.toList then restOk (t.toList.drop 7)
  else false

/-- `ValidationResult` from `src/types/index.ts`. -/
structure ValidationResult where
  isValid : Bool
  errors : List String
  deriving DecidableEq, Repr

/-- `validateUrl` from `src/utils/validation.ts`: empty/whitespace input is
"URL is required", a trimmed input failing the URL pattern is
`ERROR_MESSAGES.INVALID_URL`. -/
def validateUrl (url : String) : ValidationResult :=
  let errors : List String :=
    if url = "" || jsTrim url = "" then ["URL is required"]
    else if !(urlPatternTest (jsTrim url)) then ["Please enter a valid URL"]
    else []
  ⟨errors.isEmpty, errors⟩

/-- `sanitizeUrl` from `src/utils/validation.ts`: trim, return `""` for an
all-whitespace input, otherwise prepend `https://` when no scheme is
present. -/
def sanitizeUrl (url : String) : String :=
  let trimmed := jsTrim url
  if trimmed = "" then ""
  else if schemeTest trimmed then trimmed
  else "https://" ++ trimmed

/-! ## JavaScript values and `JSON.parse`

The analyze route manipulates the value returned by `JSON.parse` with
duck-typed member access; `Json` models such runtime values.  Numbers are kept
as their source lexeme (only their truthiness is ever consumed).  Object
member order follows JavaScript insertion-order semantics; duplicate keys in
a JSON text keep the first position with the last value, as `JSON.parse`
does. -/

inductive Json where
  | jnull : Json
  | jbool (b : Bool) : Json
  | jnum (lexeme : String) : Json
  | jstr (s : String) : Json
  | jarr (elems : List Json) : Json
  | jobj (fields : List (String × Json)) : Json

/-- Association update with JavaScript object semantics: an existing key keeps
its position and receives the new value, a new key is appended. -/
def assocSet {β : Type} (l : List (String × β)) (k : String) (v : β) :
    List (String × β) :=
  match l with
  | [] => [(k, v)]
  | (k', v') :: t => if k' = k then (k, v) :: t else (k', v') :: assocSet t k v

/-- Association lookup (first occurrence). -/
def assocGet {β : Type} (l : List (String × β)) (k : String) : Option β :=
  match l with
  | [] => none
  | (k', v') :: t => if k' = k then some v' else assocGet t k

/-- Whether a numeric lexeme denotes zero: every digit of its mantissa is
`0`. -/
def numLexZero (lexeme : String) : Bool :=
  (lexeme.toList.takeWhile (fun c => !(c = 'e' || c = 'E'))).all
    (fun c => c = '0' || c = '-' || c = '.')

/-- JavaScript truthiness of a parsed JSON value. -/
def jsTruthy : Json → Bool
  | .jnull => false
  | .jbool b => b
  | .jnum lexeme => !(numLexZero lexeme)
  | .jstr s => !(s = "")
  | .jarr _ => true
  | .jobj _ => true

/-- JavaScript member access `v.k`: `none` models `undefined`.  (Access on
`null` throws; callers model that case separately.) -/
def getMember (v : Json) (k : String) : Option Json :=
  match v with
  | .jobj fields => assocGet fields k
  | _ => none

/-- Property assignment `v.k = x` on an object value. -/
def setMember (v : Json) (k : String) (x : Json) : Json :=
  match v with
  | .jobj fields => .jobj (assocSet fields k x)
  | other => other

/-- The own enumerable properties contributed by an object spread
`\x7b...v\x7d`: objects contribute their fields, arrays and strings contribute
index-keyed entries, primitives contribute nothing. -/
def spreadObj : Json → List (String × Json)
  | .jobj fields => fields
  | .jarr elems => elems.enum.map (fun p => (toString p.1, p.2))
  | .jstr s => s.toList.enum.map (fun p => (toString p.1, Json.jstr (String.mk [p.2])))
  | _ => []

/-- JavaScript `v || d` on JSON values (`none` is `undefined`). -/
def jsOrJ (v : Option Json) (d : Json) : Json :=
  match v with
  | some x => if jsTruthy x then x else d
  | none => d

/-! ### JSON parser (the behaviour of `JSON.parse`) -/

/-- Hexadecimal digit value. -/
def hexVal (c : Char) : Option Nat :=
  if '0' ≤ c ∧ c ≤ '9' then some (c.toNat - '0'.toNat)
  else if 'a' ≤ c ∧ c ≤ 'f' then some (c.toNat - 'a'.toNat + 10)
  else if 'A' ≤ c ∧ c ≤ 'F' then some (c.toNat - 'A'.toNat + 10)
  else none

/-- JSON whitespace (per RFC 8259, what `JSON.parse` skips). -/
def isJsonWs (c : Char) : Bool :=
  c = ' ' || c = '\t' || c = '\n' || c = '\r'

/-- Skip JSON whitespace. -/
def skipWs (l : List Char) : List Char :=
  l.dropWhile isJsonWs

/-- Parse the body of a JSON string after the opening quote, handling escape
sequences; returns the decoded string and the input after the closing
quote. -/
def parseStrAux : Nat → List Char → List Char → Option (String × List Char)
  | 0, _, _ => none
  | _ + 1, _, [] => none
  | fuel + 1, acc, c :: rest =>
    if c = '\"' then some (String.mk acc.reverse, rest)
    else if c = '\\' then
      match rest with
      | [] => none
      | e :: rest' =>
        if e = '\"' then parseStrAux fuel ('\"' :: acc) rest'
        else if e = '\\' then parseStrAux fuel ('\\' :: acc) rest'
        else if e = '/' then parseStrAux fuel ('/' :: acc) rest'
        else if e = 'b' then parseStrAux fuel ('\x08' :: acc) rest'
        else if e = 'f' then parseStrAux fuel ('\x0c' :: acc) rest'
        else if e = 'n' then parseStrAux fuel ('\n' :: acc) rest'
        else if e = 'r' then parseStrAux fuel ('\r' :: acc) rest'
        else if e = 't' then parseStrAux fuel ('\t' :: acc) rest'
        else if e = 'u' then
          match rest' with
          | h1 :: h2 :: h3 :: h4 :: rest'' =>
            match hexVal h1, hexVal h2, hexVal h3, hexVal h4 with
            | some a, some b, some c', some d =>
              parseStrAux fuel (Char.ofNat (((a * 16 + b) * 16 + c') * 16 + d) :: acc) rest''
            | _, _, _, _ => none
          | _ => none
        else none
    else if c.toNat < 0x20 then none
    else parseStrAux fuel (c :: acc) rest

/-- Parse an optional JSON fraction part, returning its lexeme characters. -/
def parseFrac (l : List Char) : Option (List Char × List Char) :=
  match l with
  | '.' :: t =>
    let ds := t.takeWhile Char.isDigit
    if ds.isEmpty then none else some ('.' :: ds, t.dropWhile Char.isDigit)
  | _ => some ([], l)

/-- Parse an optional JSON exponent part, returning its lexeme characters. -/
def parseExp (l : List Char) : Option (List Char × List Char) :=
  match l with
  | c :: t =>
    if c = 'e' || c = 'E' then
      let sgnT : List Char × List Char :=
        match t with
        | '+' :: u => (['+'], u)
        | '-' :: u => (['-'], u)
        | _ => ([], t)
      let ds := sgnT.2.takeWhile Char.isDigit
      if ds.isEmpty then none
      else some (c :: (sgnT.1 ++ ds), sgnT.2.dropWhile Char.isDigit)
    else some ([], l)
  | [] => some ([], [])

/-- Parse a JSON number, returning its lexeme. -/
def parseNum (l : List Char) : Option (String × List Char) :=
  let signT : List Char × List Char :=
    match l with
    | '-' :: t => (['-'], t)
    | _ => ([], l)
  match signT.2 with
  | '0' :: t => do
    let f ← parseFrac t
    let e ← parseExp f.2
    pure (String.mk (signT.1 ++ '0' :: (f.1 ++ e.1)), e.2)
  | c :: _ =>
    if c.isDigit then do
      let ip := signT.2.takeWhile Char.isDigit
      let f ← parseFrac (signT.2.dropWhile Char.isDigit)
      let e ← parseExp f.2
      pure (String.mk (signT.1 ++ ip ++ f.1 ++ e.1), e.2)
    else none
  | [] => none

/-- Parser mode: a plain value, the members of an object (after at least one
member is required), or the elements of an array. -/
inductive PKind where
  | val : PKind
  | members (acc : List (String × Json)) : PKind
  | elems (acc : List Json) : PKind

/-- Recursive-descent JSON parser; fuel-indexed so that every equation is a
structural recursion the kernel can evaluate. -/
def parseF : Nat → PKind → List Char → Option (Json × List Char)
  | 0, _, _ => none
  | fuel + 1, .val, l =>
    match skipWs l with
    | '\x7b' :: rest =>
      match skipWs rest with
      | '\x7d' :: r => some (.jobj [], r)
      | r => parseF fuel (.members []) r
    | '[' :: rest =>
      match skipWs rest with
      | ']' :: r => some (.jarr [], r)
      | r => parseF fuel (.elems []) r
    | '\"' :: rest =>
      (parseStrAux rest.length [] rest).map (fun p => (Json.jstr p.1, p.2))
    | 't' :: 'r' :: 'u' :: 'e' :: r => some (.jbool true, r)
    | 'f' :: 'a' :: 'l' :: 's' :: 'e' :: r => some (.jbool false, r)
    | 'n' :: 'u' :: 'l' :: 'l' :: r => some (.jnull, r)
    | l' => (parseNum l').map (fun p => (Json.jnum p.1, p.2))
  | fuel + 1, .members acc, l =>
    match skipWs l with
    | '\"' :: rest =>
      match parseStrAux rest.length [] rest with
      | some (k, r1) =>
        match skipWs r1 with
        | ':' :: r2 =>
          match parseF fuel .val r2 with
          | some (v, r3) =>
            match skipWs r3 with
            | ',' :: r4 => parseF fuel (.members (assocSet acc k v)) r4
            | '\x7d' :: r4 => some (.jobj (assocSet acc k v), r4)
            | _ => none
          | none => none
        | _ => none
      | none => none
    | _ => none
  | fuel + 1, .elems acc, l =>
    match parseF fuel .val l with
    | some (v, r1) =>
      match skipWs r1 with
      | ',' :: r2 => parseF fuel (.elems (acc ++ [v])) r2
      | ']' :: r2 => some (.jarr (acc ++ [v]), r2)
      | _ => none
    | none => none

/-- `JSON.parse`: parse one value and require only whitespace to follow. -/
def jsonParse (s : String) : Option Json :=
  match parseF (2 * s.length + 2) .val s.toList with
  | some (v, rest) => if skipWs rest = [] then some v else none
  | none => none

/-! ## The analyze route (src/app/api/claude/analyze/route.ts) -/

/-- The extraction performed by `responseText.match(/\x7b[\s\S]*\x7d/)`: the
span from the first opening brace to the last closing brace when the latter
follows the former, otherwise (no match) the whole text. -/
def extractSpan (s : String) : String :=
  let cs := s.toList
  match cs.findIdx? (fun c => c = '\x7b') with
  | none => s
  | some i =>
    match cs.reverse.findIdx? (fun c => c = '\x7d') with
    | none => s
    | some jr =>
      let j := cs.length - 1 - jr
      if i < j then String.mk ((cs.drop i).take (j - i + 1)) else s

/-- Whether a text contains no brace characters at all. -/
def noBraces (s : String) : Bool :=
  s.toList.all (fun c => !(c = '\x7b') && !(c = '\x7d'))

/-- The three tools of the canned fallback response. -/
def fallbackTools : List Json :=
  [ .jobj [("id", .jstr "navigate"), ("name", .jstr "Navigate to URL"),
           ("description", .jstr "Open the URL in a new tab"),
           ("category", .jstr "navigation"), ("action", .jstr "navigate")],
    .jobj [("id", .jstr "extract-text"), ("name", .jstr "Extract Text"),
           ("description", .jstr "Extract all text content from the page"),
           ("category", .jstr "data-extraction"), ("action", .jstr "extract")],
    .jobj [("id", .jstr "analyze-structure"), ("name", .jstr "Analyze Structure"),
           ("description", .jstr "Analyze the HTML structure and layout"),
           ("category", .jstr "analysis"), ("action", .jstr "analyze")] ]

/-- The canned fallback `ClaudeAnalysisResponse` substituted when JSON parsing
of the completion fails. -/
def fallbackData (responseText : String) : Json :=
  .jobj [ ("analysis", .jstr (jsOrS responseText "Analysis completed")),
          ("suggestions", .jarr [ .jstr "Navigate to the website",
                                  .jstr "Extract key information",
                                  .jstr "Analyze page structure",
                                  .jstr "Check for interactive elements",
                                  .jstr "Review content quality"]),
          ("tools", .jarr fallbackTools) ]

/-- One step of the tool normalization
`(tool, index) => (\x7b ...tool, id: tool.id || `tool-${index}`, ... \x7d)`.
`none` models the `TypeError` thrown when the element is `null` (member
access on `null` throws). -/
def normalizeTool (i : Nat) (t : Json) : Option Json :=
  match t with
  | .jnull => none
  | _ =>
    let fs := spreadObj t
    let fs := assocSet fs "id" (jsOrJ (getMember t "id") (.jstr ("tool-" ++ toString i)))
    let fs := assocSet fs "name" (jsOrJ (getMember t "name") (.jstr ("Tool " ++ toString (i + 1))))
    let fs := assocSet fs "description" (jsOrJ (getMember t "description") (.jstr "No description available"))
    let fs := assocSet fs "category" (jsOrJ (getMember t "category") (.jstr "utility"))
    let fs := assocSet fs "action" (jsOrJ (getMember t "action") (.jstr "execute"))
    some (.jobj fs)

/-- `tools.map((tool, index) => ...)` starting at a given index; the first
thrown `TypeError` aborts the whole request. -/
def normalizeToolsFrom (i : Nat) : List Json → Option (List Json)
  | [] => some []
  | t :: ts => do
    let t' ← normalizeTool i t
    let ts' ← normalizeToolsFrom (i + 1) ts
    pure (t' :: ts')

/-- The full tool-list normalization of the analyze route. -/
def normalizeTools (ts : List Json) : Option (List Json) :=
  normalizeToolsFrom 0 ts

/-- The `if (analysisData.tools) \x7b analysisData.tools = analysisData.tools.map(...) \x7d`
step.  `none` models a thrown `TypeError`: member access on a `null`
`analysisData`, `.map` on a truthy non-array `tools`, or a `null` element. -/
def ensureTools (d : Json) : Option Json :=
  match d with
  | .jnull => none
  | _ =>
    match getMember d "tools" with
    | some tv =>
      if jsTruthy tv then
        match tv with
        | .jarr xs => (normalizeTools xs).map (fun ys => setMember d "tools" (.jarr ys))
        | _ => none
      else some d
    | none => some d

/-- The parse-and-normalize step of `POST /analyze`: brace-span extraction,
`JSON.parse` with the canned fallback on failure, then tool normalization. -/
def parseAndNormalize (responseText : String) : Option Json :=
  let jsonString := extractSpan responseText
  let analysisData :=
    match jsonParse jsonString with
    | some v => v
    | none => fallbackData responseText
  ensureTools analysisData

/-- Substring containment on character lists. -/
def containsSubL : List Char → List Char → Bool
  | l, n => n.isPrefixOf l ||
    match l with
    | [] => false
    | _ :: t => containsSubL t n

/-- Substring containment, for the `error.message.includes(...)` dispatch. -/
def containsSub (hay needle : String) : Bool :=
  containsSubL hay.toList needle.toList

/-- The request body of `POST /analyze` (`ClaudeAnalysisRequest`). -/
structure AnalyzeBody where
  url : String
  prompt : Option String := none
  deriving DecidableEq, Repr

/-- Outcome of the `anthropic.messages.create` call: the first text segment of
the reply, or a thrown error with its message. -/
inductive Completion where
  | text (s : String) : Completion
  | failed (msg : String) : Completion
  deriving DecidableEq, Repr

/-- The `\x7bsuccess, data?, error?, message?\x7d` envelope together with the HTTP
status it is sent with. -/
structure ApiResp where
  success : Bool
  status : Nat
  data : Option Json := none
  error : Option String := none
  message : Option String := none

/-- The trailing catch of the analyze route: `API key` messages map to 401
with `ERROR_MESSAGES.UNAUTHORIZED`, `rate limit` to 429 with
`ERROR_MESSAGES.RATE_LIMITED`, anything else keeps its message at 500. -/
def catchMap (msg : String) : ApiResp :=
  if containsSub msg "API key" then
    ⟨false, 401, none, some "Unauthorized access. Please check your API key.", none⟩
  else if containsSub msg "rate limit" then
    ⟨false, 429, none, some "Too many requests. Please wait before trying again.", none⟩
  else ⟨false, 500, none, some msg, none⟩

/-- Stands in for the JavaScript engine's `TypeError` message when the
normalization step throws; the route only tests it for the substrings
`API key` and `rate limit`. -/
def typeErrorMessage : String := "TypeError"

/-- `POST /api/claude/analyze` (the handler at the top of the route file):
parse body, validate the URL (400), then check the credential (500), then
call the completion API and parse/normalize its text.  The body is taken
already parsed; `apiKey` is `process.env.ANTHROPIC_API_KEY` with `none` for
an unset variable (the empty string is equally falsy). -/
def postAnalyze (apiKey : Option String) (body : AnalyzeBody) (completion : Completion) : ApiResp :=
  let urlValidation := validateUrl body.url
  if !urlValidation.isValid then
    ⟨false, 400, none, some (String.intercalate ", " urlValidation.errors), none⟩
  else if apiKey.getD "" = "" then
    ⟨false, 500, none, some "Anthropic API key not configured", none⟩
  else
    match completion with
    | .failed msg => catchMap msg
    | .text responseText =>
      match parseAndNormalize responseText with
      | some analysisData =>
        ⟨true, 200, some analysisData, none, some "Analysis completed successfully"⟩
      | none => catchMap typeErrorMessage

/-! ## `GET /api/mcp/tools` (appended in the route file) -/

/-- `ParamSpec`-shaped parameter descriptor as used in the mock data and the
predefined directory. -/
structure ParamSpec where
  type : String
  required : Option Bool := none
  description : Option String := none
  enum : Option (List String) := none
  deriving DecidableEq, Repr

/-- `Tool` from `src/types/index.ts`. -/
structure Tool where
  id : String
  name : String
  description : String
  category : String
  action : String
  parameters : Option (List (String × ParamSpec)) := none
  deriving DecidableEq, Repr

/-- The mock tool list of the tools route. -/
def allMcpTools : List Tool :=
  [ ⟨"navigate", "Navigate", "Navigate to a URL", "navigation", "navigate",
      some [("url", ⟨"string", some true, some "URL to navigate to", none⟩)]⟩,
    ⟨"click", "Click Element", "Click on a page element", "interaction", "click",
      some [("selector", ⟨"string", some true, some "CSS selector for the element", none⟩)]⟩,
    ⟨"extract-text", "Extract Text", "Extract text from page elements", "data-extraction", "extract",
      some [("selector", ⟨"string", some false, some "CSS selector (optional)", none⟩)]⟩,
    ⟨"analyze-content", "Analyze Content", "Analyze page content and structure", "analysis", "analyze", none⟩,
    ⟨"extract-links", "Extract Links", "Extract all links from the page", "data-extraction", "extract", none⟩,
    ⟨"check-seo", "SEO Check", "Check SEO elements and best practices", "analysis", "analyze", none⟩,
    ⟨"screenshot", "Take Screenshot", "Take a screenshot of the current page", "utility", "capture", none⟩,
    ⟨"scroll", "Scroll Page", "Scroll the page up or down", "interaction", "scroll",
      some [("direction", ⟨"string", some true, some "Direction to scroll (up/down)", none⟩),
            ("amount", ⟨"number", some false, some "Amount to scroll in pixels", none⟩)]⟩ ]

/-- The fixed server-to-tool-id allowlist of the tools route. -/
def serverToolMap : List (String × List String) :=
  [ ("browser-tools", ["navigate", "click", "extract-text", "screenshot", "scroll"]),
    ("analysis-tools", ["analyze-content", "extract-links", "check-seo"]) ]

/-- Response of the tools route (success envelope with its payload). -/
structure ToolsResp where
  success : Bool
  status : Nat
  data : List Tool
  message : String
  deriving DecidableEq, Repr

/-- `GET /api/mcp/tools?serverId=...`: `searchParams.get` yields `none` for an
absent parameter; `if (serverId)` is JavaScript truthiness, so the empty
string behaves like an absent parameter.  An unknown id filters against the
`|| []` default. -/
def mcpToolsGET (serverId : Option String) : ToolsResp :=
  let tools := allMcpTools
  let serverIdTruthy :=
    match serverId with
    | some sid => !(sid = "")
    | none => false
  let tools :=
    if serverIdTruthy then
      let allowedToolIds := (assocGet serverToolMap (serverId.getD "")).getD []
      tools.filter (fun t => allowedToolIds.contains t.id)
    else tools
  ⟨true, 200, tools,
    "Tools retrieved successfully" ++
      (if serverIdTruthy then " for server " ++ serverId.getD "" else "")⟩

/-! ## The client view-state machine (src/components/GenerativeMCPApp.tsx)

The component's `useState` variables form the state; each event handler is a
pure state transformer.  React functional updates (`set(prev => ...)`) read
the queued state, while plain reads of `tabs` inside a handler read the
render-time closure value; both are modelled explicitly.  The two `await`
points (the analyze API call and the 2-second execution timer) split their
handlers into a synchronous start and a separate completion event; the lists
`pendingConnect` and `pending` record the in-flight calls between the two. -/

/-- `PredictiveAction` of the component. -/
structure PredictiveAction where
  action : String
  confidence : ℚ
  context : String
  enhancedContext : Option String := none
  deriving DecidableEq, Repr

/-- `ToolSchema` of the component. -/
structure ToolSchema where
  name : String
  description : String
  displayName : Option String := none
  parameters : Option (List (String × ParamSpec)) := none
  deriving DecidableEq, Repr

/-- The component's legacy `MCPServer` record; the React icon element is
modelled by its component name.  (`authFlow`/`authUrl`/`serviceName` are
never populated by the component and are omitted.) -/
structure MCPServer where
  name : String
  icon : String
  type : String
  description : String
  tools : List String
  predictiveActions : List PredictiveAction
  toolSchemas : List (String × ToolSchema)
  aiGenerated : Option Bool := none
  isReal : Option Bool := none
  baseUrl : Option String := none
  deriving DecidableEq, Repr

/-- `LegacyTab` of the component. -/
structure LegacyTab where
  id : Nat
  title : String
  url : String
  active : Bool
  deriving DecidableEq, Repr

/-- The typed `ClaudeAnalysisResponse` as consumed by the component (absent
optional members are folded into `""`/`[]`, matching the `|| []` and `||
'...'` accesses). -/
structure AnalysisResp where
  analysis : String
  suggestions : List String
  tools : List Tool
  deriving DecidableEq, Repr

/-- A form field value: text/select inputs give strings, checkboxes give
booleans. -/
inductive FormVal where
  | str (s : String) : FormVal
  | bool (b : Bool) : FormVal
  deriving DecidableEq, Repr

/-- The enhanced MCP directory constant `mcpDirectory`. -/
def mcpDirectory : List (String × MCPServer) :=
  [ ("github.com",
     { name := "GitHub", icon := "Square", type := "code",
       description := "Code repositories and collaboration",
       tools := ["create-repo", "list-repos", "search-code", "manage-issues",
                 "create-pr", "view-commits"],
       predictiveActions :=
         [ ⟨"create-repo", 9/10, "Start a new project", none⟩,
           ⟨"list-repos", 7/10, "Browse existing repositories", none⟩,
           ⟨"search-code", 6/10, "Find specific code patterns", none⟩ ],
       toolSchemas :=
         [ ("create-repo",
            { name := "create-repo", description := "Create a new GitHub repository",
              parameters := some
                [ ("name", ⟨"string", some true, none, none⟩),
                  ("description", ⟨"string", some false, none, none⟩),
                  ("private", ⟨"boolean", some false, none, none⟩),
                  ("init_readme", ⟨"boolean", some false, none, none⟩) ] }),
           ("list-repos",
            { name := "list-repos", description := "List GitHub repositories",
              parameters := some
                [ ("language", ⟨"string", none, none,
                    some ["All Languages", "JavaScript", "Python", "Go", "Rust"]⟩),
                  ("visibility", ⟨"string", none, none,
                    some ["All Visibility", "Public", "Private"]⟩) ] }) ] }),
    ("notion.so",
     { name := "Notion", icon := "Circle", type := "knowledge",
       description := "Knowledge management and productivity",
       tools := ["create-page", "search-content", "update-database",
                 "get-analytics", "manage-templates"],
       predictiveActions :=
         [ ⟨"create-page", 8/10, "Start documenting", none⟩,
           ⟨"search-content", 7/10, "Find existing notes", none⟩ ],
       toolSchemas :=
         [ ("create-page",
            { name := "create-page", description := "Create a new Notion page",
              parameters := some
                [ ("title", ⟨"string", some true, none, none⟩),
                  ("content", ⟨"text", some true, none, none⟩),
                  ("template", ⟨"string", none, none,
                    some ["Meeting Notes", "Project Brief", "Documentation"]⟩) ] }) ] }),
    ("slack.com",
     { name := "Slack", icon := "Triangle", type := "communication",
       description := "Team communication and automation",
       tools := ["send-message", "create-channel", "schedule-message",
                 "get-analytics", "manage-users"],
       predictiveActions :=
         [ ⟨"send-message", 9/10, "Communicate with team", none⟩,
           ⟨"create-channel", 6/10, "Organize conversations", none⟩ ],
       toolSchemas :=
         [ ("send-message",
            { name := "send-message", description := "Send a message to Slack",
              parameters := some
                [ ("channel", ⟨"string", some true, none, none⟩),
                  ("message", ⟨"text", some true, none, none⟩),
                  ("schedule_time", ⟨"datetime", some false, none, none⟩) ] }) ] }),
    ("data.local",
     { name := "Data Analysis", icon := "Database", type := "analytics",
       description := "Local data analysis and visualization tools",
       tools := ["import-data", "analyze-dataset", "create-visualization",
                 "export-results", "run-query"],
       predictiveActions :=
         [ ⟨"import-data", 9/10, "Load your dataset", none⟩,
           ⟨"analyze-dataset", 8/10, "Explore data patterns", none⟩,
           ⟨"create-visualization", 7/10, "Generate charts and graphs", none⟩ ],
       toolSchemas :=
         [ ("import-data",
            { name := "import-data", description := "Import data from various sources",
              parameters := some
                [ ("source", ⟨"string", none, none,
                    some ["CSV", "JSON", "Excel", "Database"]⟩),
                  ("file_path", ⟨"string", some true, none, none⟩) ] }),
           ("analyze-dataset",
            { name := "analyze-dataset", description := "Perform statistical analysis on dataset",
              parameters := some
                [ ("dataset_id", ⟨"string", some true, none, none⟩),
                  ("analysis_type", ⟨"string", none, none,
                    some ["Summary", "Correlation", "Regression", "Clustering"]⟩) ] }) ] }) ]

/-- The `popularMCPs` constant (url, title). -/
def popularMCPs : List (String × String) :=
  [ ("github.com", "GitHub — Code & Collaboration"),
    ("notion.so", "Notion — Knowledge Base"),
    ("slack.com", "Slack — Team Communication"),
    ("data.local", "Data Analysis — Local Tools") ]

/-- The component's state: the `useState` variables, plus the in-flight
analyze calls (`pendingConnect`, keyed by URL) and in-flight simulated
executions (`pending`, tool name with the parameters captured at start). -/
structure ViewState where
  url : String
  isLoading : Bool
  currentServer : Option MCPServer
  suggestions : List String
  tabs : List LegacyTab
  activeTab : Nat
  predictiveActions : List PredictiveAction
  executingAction : Option String
  selectedTool : Option String
  toolResults : List (String × String)
  formData : List (String × List (String × FormVal))
  error : Option String
  pendingConnect : List String
  pending : List (String × List (String × FormVal))
  deriving DecidableEq, Repr

/-- The initial state of the component. -/
def initState : ViewState :=
  { url := "", isLoading := false, currentServer := none, suggestions := [],
    tabs := [⟨1, "New Tab", "", true⟩], activeTab := 1,
    predictiveActions := [], executingAction := none, selectedTool := none,
    toolResults := [], formData := [], error := none,
    pendingConnect := [], pending := [] }

/-- `formData[toolName] || \x7b\x7d`. -/
def lookupFD (fd : List (String × List (String × FormVal))) (t : String) :
    List (String × FormVal) :=
  (assocGet fd t).getD []

/-- Serialization of the captured execution parameters; stands in for
`JSON.stringify(parameters, null, 2)` (the exact pretty-printing is never
inspected by the component). -/
def stringifyParams (ps : List (String × FormVal)) : String :=
  match ps with
  | [] => "\x7b\x7d"
  | _ =>
    "\x7b\n" ++
      String.intercalate ",\n"
        (ps.map (fun p =>
          "  \"" ++ p.1 ++ "\": " ++
            match p.2 with
            | .str s => "\"" ++ s ++ "\""
            | .bool b => if b then "true" else "false")) ++
      "\n\x7d"

/-- The success string produced by the simulated executor. -/
def resultString (toolName : String) (ps : List (String × FormVal)) : String :=
  "Tool \"" ++ toolName ++ "\" executed successfully with parameters: " ++
    stringifyParams ps

/-- Remove the first in-flight execution with the given tool name. -/
def erasePending (l : List (String × List (String × FormVal))) (t : String) :
    List (String × List (String × FormVal)) :=
  match l with
  | [] => []
  | p :: rest => if p.1 = t then rest else p :: erasePending rest t

/-- `Math.max(...tabs.map(t => t.id))` (tabs is never empty in reachable
states, so the empty-list case is immaterial). -/
def maxIds (tabs : List LegacyTab) : Nat :=
  (tabs.map (fun t => t.id)).foldr max 0

/-- The synchronous part of `connectToMCPServer`: set loading, clear the
error, serve a predefined directory entry immediately, otherwise start an
analyze call (the `finally` clears loading in the predefined branch; in the
AI branch loading stays set until the call resolves). -/
def connectToMCPServer (s : ViewState) (serverUrl : String) : ViewState :=
  let s := { s with isLoading := true, error := none }
  match assocGet mcpDirectory serverUrl with
  | some predefinedServer =>
    { s with currentServer := some predefinedServer,
             predictiveActions := predefinedServer.predictiveActions,
             isLoading := false }
  | none => { s with pendingConnect := s.pendingConnect ++ [serverUrl] }

/-- The AI-generated server built from a successful analyze response. -/
def aiServer (serverUrl : String) (analysis : AnalysisResp) : MCPServer :=
  { name := jsOrS analysis.analysis "AI Generated Server",
    icon := "Database", type := "ai-generated",
    description := jsOrS analysis.analysis "AI-generated MCP server",
    tools := analysis.tools.map (fun tool => tool.id),
    predictiveActions :=
      analysis.suggestions.enum.map
        (fun p => ⟨"action-" ++ toString p.1, 8/10, p.2, some p.2⟩),
    toolSchemas :=
      analysis.tools.map (fun tool =>
        (tool.id, { name := tool.id, description := tool.description,
                    displayName := some tool.name })),
    aiGenerated := some true, isReal := some false,
    baseUrl := some serverUrl }

/-- Resolution of an in-flight analyze call with a successful response. -/
def applyConnectOk (s : ViewState) (u : String) (analysis : AnalysisResp) : ViewState :=
  let srv := aiServer u analysis
  { s with pendingConnect := s.pendingConnect.erase u,
           currentServer := some srv,
           predictiveActions := srv.predictiveActions,
           isLoading := false }

/-- Resolution of an in-flight analyze call with a thrown error:
`analyzeUrlWithAI` records the message and returns `null`, then the
`finally` clears loading. -/
def applyConnectErr (s : ViewState) (u : String) (msg : String) : ViewState :=
  { s with pendingConnect := s.pendingConnect.erase u,
           error := some msg, isLoading := false }

/-- `navigateToMCP`: validate the raw input first; on failure record the
error and stop.  Otherwise sanitize, set the address bar, retitle the active
tab, publish suggestions and connect. -/
def navigateToMCP (s : ViewState) (mcpUrl : String) : ViewState :=
  let validation := validateUrl mcpUrl
  if !validation.isValid then
    { s with error := some (String.intercalate ", " validation.errors) }
  else
    let sanitizedUrl := sanitizeUrl mcpUrl
    let s := { s with
      url := sanitizedUrl,
      tabs := s.tabs.map (fun (tab : LegacyTab) =>
        if tab.active then { tab with url := sanitizedUrl, title := sanitizedUrl }
        else tab),
      suggestions := [sanitizedUrl ++ "/api", sanitizedUrl ++ "/docs",
                      sanitizedUrl ++ "/tools", sanitizedUrl ++ "/auth",
                      sanitizedUrl ++ "/status"] }
    connectToMCPServer s sanitizedUrl

/-- `selectTab`: mark the chosen id active, record it, then dispatch on the
selected tab's url — found with a non-empty url reconnects, otherwise the
url, server and predictive actions are cleared.  `closureTabs` is the
render-time `tabs` value the handler's `tabs.find` reads (stale when called
from `createNewTab`/`closeTab`). -/
def applySelectTab (s : ViewState) (closureTabs : List LegacyTab) (tabId : Nat) : ViewState :=
  let s := { s with
    tabs := s.tabs.map (fun (tab : LegacyTab) => { tab with active := tab.id == tabId }),
    activeTab := tabId }
  match closureTabs.find? (fun (t : LegacyTab) => t.id == tabId) with
  | some selectedTab =>
    if selectedTab.url = "" then
      { s with url := "", currentServer := none, predictiveActions := [] }
    else
      connectToMCPServer { s with url := selectedTab.url } selectedTab.url
  | none => { s with url := "", currentServer := none, predictiveActions := [] }

/-- `createNewTab`: append a tab with id `max + 1`, then `selectTab` it (the
inner `tabs.find` reads the stale pre-append list). -/
def applyNewTab (s : ViewState) : ViewState :=
  let newTabId := maxIds s.tabs + 1
  let s1 := { s with tabs := s.tabs ++ [⟨newTabId, "New Tab", "", false⟩] }
  applySelectTab s1 s.tabs newTabId

/-- The `tabs[tabIndex]?.active` test of `closeTab` (`undefined` when the id
is absent is falsy). -/
def closeWasActive (tabs : List LegacyTab) (tabId : Nat) : Bool :=
  match tabs.findIdx? (fun t => t.id == tabId) with
  | some i => ((tabs.get? i).map (fun t => t.active)).getD false
  | none => false

/-- `closeTab`: a single remaining tab is a no-op; otherwise filter the tab
out and, when it was the active one, select `remaining[max(0, index - 1)]`
(natural subtraction equals the JavaScript `Math.max(0, i - 1)` here). -/
def applyCloseTab (s : ViewState) (tabId : Nat) : ViewState :=
  if s.tabs.length = 1 then s
  else if closeWasActive s.tabs tabId then
    match (s.tabs.filter (fun t => !(t.id == tabId))).get?
        ((s.tabs.findIdx? (fun t => t.id == tabId)).getD 0 - 1) with
    | some newActiveTab =>
      applySelectTab { s with tabs := s.tabs.filter (fun t => !(t.id == tabId)) }
        s.tabs newActiveTab.id
    | none => { s with tabs := s.tabs.filter (fun t => !(t.id == tabId)) }
  else { s with tabs := s.tabs.filter (fun t => !(t.id == tabId)) }

/-- Start of `executeToolWithAI` reached from `handleExecuteTool` (the
Execute Tool button): guard on a selected tool and a server, then mark the
tool executing and record the in-flight call with the parameters captured
now. -/
def applyExecButton (s : ViewState) : ViewState :=
  match s.selectedTool with
  | none => s
  | some t =>
    match s.currentServer with
    | none => s
    | some _ =>
      { s with executingAction := some t,
               pending := s.pending ++ [(t, lookupFD s.formData t)] }

/-- Start of `executeAction` reached from a predictive-action card's
`onClick` (the card body is clickable regardless of the inner button's
disabled state). -/
def applyCard (s : ViewState) (action : String) : ViewState :=
  match s.currentServer with
  | none => s
  | some _ =>
    { s with executingAction := some action,
             pending := s.pending ++ [(action, lookupFD s.formData action)] }

/-- Completion of a simulated execution after its 2-second delay: record the
result under the tool's key; the `finally` clears `executingAction`
unconditionally. -/
def applyExecDone (s : ViewState) (t : String) : ViewState :=
  let ps := ((s.pending.find? (fun p => p.1 = t)).map (fun p => p.2)).getD []
  { s with toolResults := assocSet s.toolResults t (resultString t ps),
           executingAction := none,
           pending := erasePending s.pending t }

/-- `handleFormChange`. -/
def applyFormEdit (s : ViewState) (toolName field : String) (v : FormVal) : ViewState :=
  { s with formData :=
      assocSet s.formData toolName (assocSet (lookupFD s.formData toolName) field v) }

/-- The user/async events of the component. -/
inductive Ev where
  | urlEdit (v : String) : Ev
  | navigateEnter : Ev
  | popularClick (u : String) : Ev
  | connectOk (u : String) (analysis : AnalysisResp) : Ev
  | connectErr (u : String) (msg : String) : Ev
  | toolClick (t : String) : Ev
  | closeTool : Ev
  | execButton : Ev
  | card (action : String) : Ev
  | execDone (t : String) : Ev
  | newTab : Ev
  | close (tabId : Nat) : Ev
  | select (tabId : Nat) : Ev
  | dismissError : Ev
  | formEdit (toolName field : String) (v : FormVal) : Ev
  deriving DecidableEq, Repr

/-- The tab ids of a tab list. -/
def ids (tabs : List LegacyTab) : List Nat :=
  tabs.map (fun t => t.id)

/-- Whether the UI can emit an event in a state: an element must be rendered
for its handler to fire, and a completion needs a matching in-flight call.
The Execute Tool button additionally carries
`disabled=\x7bexecutingAction === selectedTool\x7d`; a form input exists only
for a parameter of the selected tool's schema, since every `handleFormChange`
site is rendered inside the `schema?.parameters &&` block of
`renderToolInterface`. -/
def Permitted (s : ViewState) : Ev → Bool
  | .urlEdit _ => true
  | .navigateEnter => true
  | .popularClick u => s.currentServer.isNone && (popularMCPs.map (fun p => p.1)).contains u
  | .connectOk u _ => s.pendingConnect.contains u
  | .connectErr u _ => s.pendingConnect.contains u
  | .toolClick t =>
    match s.currentServer with
    | some srv => srv.tools.contains t
    | none => false
  | .closeTool => s.selectedTool.isSome
  | .execButton =>
    match s.selectedTool with
    | some t => !(s.executingAction == some t)
    | none => false
  | .card a =>
    s.currentServer.isSome && s.selectedTool.isNone &&
      (s.predictiveActions.map (fun p => p.action)).contains a
  | .execDone t => (s.pending.map (fun p => p.1)).contains t
  | .newTab => true
  | .close tabId => decide (1 < s.tabs.length) && (ids s.tabs).contains tabId
  | .select tabId => (ids s.tabs).contains tabId
  | .dismissError => s.error.isSome
  | .formEdit toolName field _ =>
    s.selectedTool == some toolName &&
      (match s.currentServer with
       | some srv =>
         match assocGet srv.toolSchemas toolName with
         | some schema =>
           match schema.parameters with
           | some ps => (ps.map (fun p => p.1)).contains field
           | none => false
         | none => false
       | none => false)

/-- The transition function. -/
def stepE (s : ViewState) : Ev → ViewState
  | .urlEdit v => { s with url := v }
  | .navigateEnter => navigateToMCP s s.url
  | .popularClick u => navigateToMCP s u
  | .connectOk u analysis => applyConnectOk s u analysis
  | .connectErr u msg => applyConnectErr s u msg
  | .toolClick t => { s with selectedTool := some t }
  | .closeTool => { s with selectedTool := none }
  | .execButton => applyExecButton s
  | .card action => applyCard s action
  | .execDone t => applyExecDone s t
  | .newTab => applyNewTab s
  | .close tabId => applyCloseTab s tabId
  | .select tabId => applySelectTab s s.tabs tabId
  | .dismissError => { s with error := none }
  | .formEdit toolName field v => applyFormEdit s toolName field v

/-- States reachable from the initial render through permitted events. -/
inductive Reachable : ViewState → Prop where
  | init : Reachable initState
  | step {s : ViewState} (e : Ev) : Reachable s → Permitted s e = true →
      Reachable (stepE s e)

/-- Number of tabs marked active. -/
def activeCount (tabs : List LegacyTab) : Nat :=
  tabs.countP (fun t => t.active)

/-- Ids of the tabs marked active. -/
def activeIds (tabs : List LegacyTab) : List Nat :=
  (tabs.filter (fun t => t.active)).map (fun t => t.id)

/-- Whether all five required tool fields are present and truthy (for string
fields, non-empty). -/
def toolFieldsTruthy (t : Json) : Bool :=
  ["id", "name", "description", "category", "action"].all
    (fun k => ((getMember t k).map jsTruthy).getD false)

/-- The tab-list invariant maintained by the UI: at least one tab, distinct
ids, exactly one tab marked active. -/
def TabsInv (s : ViewState) : Prop :=
  s.tabs ≠ [] ∧ (ids s.tabs).Nodup ∧ activeCount s.tabs = 1

/-- Two sample tools for the concrete traces below. -/
def demoTools : List Tool :=
  [⟨"a", "A", "demo tool a", "c", "act", none⟩,
   ⟨"b", "B", "demo tool b", "c", "act", none⟩]

/-- A sample successful analyze response. -/
def demoResp : AnalysisResp := ⟨"Test", [], demoTools⟩

/-- Concrete trace: navigate to an AI-analyzed server, select tool `a`,
start executing it, then select tool `b` while `a` is still in flight. -/
def execTraceState : ViewState :=
  stepE (stepE (stepE (stepE (stepE (stepE initState
    (.urlEdit "https://x.com")) .navigateEnter)
    (.connectOk "https://x.com" demoResp)) (.toolClick "a")) .execButton)
    (.toolClick "b")

/-- Concrete trace: navigate to an AI-analyzed server, select tool `a`, open
a second tab, fail a navigation (invalid input) to set the error, then open a
third tab; the selected tool and the error survive throughout. -/
def selectTraceState : ViewState :=
  stepE (stepE (stepE (stepE (stepE (stepE (stepE (stepE initState
    (.urlEdit "https://x.com")) .navigateEnter)
    (.connectOk "https://x.com" demoResp)) (.toolClick "a"))
    .newTab) (.urlEdit "bad")) .navigateEnter) .newTab

/-! ## Association-list lemmas -/

theorem assocGet_assocSet_self {β : Type} (l : List (String × β)) (k : String) (v : β) :
    assocGet (assocSet l k v) k = some v := by
  induction l with
  | nil => simp [assocSet, assocGet]
  | cons p t ih =>
    by_cases h : p.1 = k
    · cases p
      simp_all [assocSet, assocGet]
    · cases p
      simp_all [assocSet, assocGet]

theorem assocGet_assocSet_ne {β : Type} (l : List (String × β)) (k k' : String) (v : β)
    (h : k ≠ k') : assocGet (assocSet l k v) k' = assocGet l k' := by
  induction l with
  | nil => simp [assocSet, assocGet, h]
  | cons p t ih =>
    by_cases hp : p.1 = k
    · cases p
      subst hp
      simp_all [assocSet, assocGet]
    · cases p
      simp_all [assocSet, assocGet]

theorem assocSet_of_assocGet {β : Type} (l : List (String × β)) (k : String) (v : β)
    (h : assocGet l k = some v) : assocSet l k v = l := by
  induction l with
  | nil => simp [assocGet] at h
  | cons p t ih =>
    by_cases hp : p.1 = k
    · cases p
      simp_all [assocSet, assocGet]
    · cases p
      simp_all [assocSet, assocGet]

/-! ## Normalization lemmas -/

theorem jsTruthy_jsOrJ (o : Option Json) (d : Json) (hd : jsTruthy d = true) :
    jsTruthy (jsOrJ o d) = true := by
  cases o with
  | none => simpa [jsOrJ]
  | some x =>
    by_cases h : jsTruthy x
    · simp [jsOrJ, h]
    · simp [jsOrJ, h, hd]

theorem append_ne_empty_of_left (a b : String) (h : a ≠ "") : a ++ b ≠ "" := by
  intro he
  apply h
  have hl := congrArg String.length he
  rw [String.length_append] at hl
  have ha : a.length = 0 := by
    simpa using Nat.eq_zero_of_add_eq_zero_right hl
  cases a with
  | mk data =>
    cases data with
    | nil => rfl
    | cons c cs => simp [String.length] at ha

theorem jsTruthy_jstr_append (a b : String) (h : a ≠ "") :
    jsTruthy (.jstr (a ++ b)) = true := by
  simp [jsTruthy, append_ne_empty_of_left a b h]

theorem assocChain_lookup (fs : List (String × Json)) (v1 v2 v3 v4 v5 : Json) :
    assocGet (assocSet (assocSet (assocSet (assocSet (assocSet fs "id" v1) "name" v2)
        "description" v3) "category" v4) "action" v5) "id" = some v1
  ∧ assocGet (assocSet (assocSet (assocSet (assocSet (assocSet fs "id" v1) "name" v2)
        "description" v3) "category" v4) "action" v5) "name" = some v2
  ∧ assocGet (assocSet (assocSet (assocSet (assocSet (assocSet fs "id" v1) "name" v2)
        "description" v3) "category" v4) "action" v5) "description" = some v3
  ∧ assocGet (assocSet (assocSet (assocSet (assocSet (assocSet fs "id" v1) "name" v2)
        "description" v3) "category" v4) "action" v5) "category" = some v4
  ∧ assocGet (assocSet (assocSet (assocSet (assocSet (assocSet fs "id" v1) "name" v2)
        "description" v3) "category" v4) "action" v5) "action" = some v5 := by
  refine ⟨?_, ?_, ?_, ?_, ?_⟩
  · rw [assocGet_assocSet_ne _ _ _ _ (by decide), assocGet_assocSet_ne _ _ _ _ (by decide),
        assocGet_assocSet_ne _ _ _ _ (by decide), assocGet_assocSet_ne _ _ _ _ (by decide),
        assocGet_assocSet_self]
  · rw [assocGet_assocSet_ne _ _ _ _ (by decide), assocGet_assocSet_ne _ _ _ _ (by decide),
        assocGet_assocSet_ne _ _ _ _ (by decide), assocGet_assocSet_self]
  · rw [assocGet_assocSet_ne _ _ _ _ (by decide), assocGet_assocSet_ne _ _ _ _ (by decide),
        assocGet_assocSet_self]
  · rw [assocGet_assocSet_ne _ _ _ _ (by decide), assocGet_assocSet_self]
  · rw [assocGet_assocSet_self]

theorem normalizeTool_eq_of_ne_null (i : Nat) (t : Json) (hn : t ≠ .jnull) :
    normalizeTool i t = some (.jobj (assocSet (assocSet (assocSet (assocSet (assocSet
      (spreadObj t) "id" (jsOrJ (getMember t "id") (.jstr ("tool-" ++ toString i))))
      "name" (jsOrJ (getMember t "name") (.jstr ("Tool " ++ toString (i + 1)))))
      "description" (jsOrJ (getMember t "description") (.jstr "No description available")))
      "category" (jsOrJ (getMember t "category") (.jstr "utility")))
      "action" (jsOrJ (getMember t "action") (.jstr "execute")))) := by
  cases t <;> first | exact absurd rfl hn | rfl

theorem normalizeTool_shape (i : Nat) (t t' : Json) (h : normalizeTool i t = some t') :
    ∃ fs, t' = .jobj fs
      ∧ assocGet fs "id" = some (jsOrJ (getMember t "id") (.jstr ("tool-" ++ toString i)))
      ∧ assocGet fs "name" = some (jsOrJ (getMember t "name") (.jstr ("Tool " ++ toString (i + 1))))
      ∧ assocGet fs "description" = some (jsOrJ (getMember t "description") (.jstr "No description available"))
      ∧ assocGet fs "category" = some (jsOrJ (getMember t "category") (.jstr "utility"))
      ∧ assocGet fs "action" = some (jsOrJ (getMember t "action") (.jstr "execute")) := by
  by_cases hn : t = .jnull
  · subst hn
    simp [normalizeTool] at h
  · rw [normalizeTool_eq_of_ne_null i t hn] at h
    have ht : t' = .jobj _ := (Option.some.inj h).symm
    exact ⟨_, ht, (assocChain_lookup _ _ _ _ _ _).1, (assocChain_lookup _ _ _ _ _ _).2.1,
      (assocChain_lookup _ _ _ _ _ _).2.2.1, (assocChain_lookup _ _ _ _ _ _).2.2.2.1,
      (assocChain_lookup _ _ _ _ _ _).2.2.2.2⟩

theorem jsOrJ_some_of_truthy (v d : Json) (hv : jsTruthy v = true) :
    jsOrJ (some v) d = v := by
  simp [jsOrJ, hv]

theorem normalizeTool_fields_truthy (i : Nat) (t t' : Json) (h : normalizeTool i t = some t') :
    toolFieldsTruthy t' = true := by
  obtain ⟨fs, ht, h1, h2, h3, h4, h5⟩ := normalizeTool_shape i t t' h
  subst ht
  have g1 := jsTruthy_jsOrJ (getMember t "id") _ (jsTruthy_jstr_append "tool-" (toString i) (by decide))
  have g2 := jsTruthy_jsOrJ (getMember t "name") _ (jsTruthy_jstr_append "Tool " (toString (i + 1)) (by decide))
  have g3 := jsTruthy_jsOrJ (getMember t "description") (.jstr "No description available") (by decide)
  have g4 := jsTruthy_jsOrJ (getMember t "category") (.jstr "utility") (by decide)
  have g5 := jsTruthy_jsOrJ (getMember t "action") (.jstr "execute") (by decide)
  have e1 : getMember (Json.jobj fs) "id" = assocGet fs "id" := rfl
  have e2 : getMember (Json.jobj fs) "name" = assocGet fs "name" := rfl
  have e3 : getMember (Json.jobj fs) "description" = assocGet fs "description" := rfl
  have e4 : getMember (Json.jobj fs) "category" = assocGet fs "category" := rfl
  have e5 : getMember (Json.jobj fs) "action" = assocGet fs "action" := rfl
  simp only [toolFieldsTruthy, List.all_cons, List.all_nil,
    e1, e2, e3, e4, e5, h1, h2, h3, h4, h5, Option.map_some', Option.getD_some,
    g1, g2, g3, g4, g5, Bool.and_self, Bool.and_true, Bool.true_and]

theorem normalizeTool_idem (i : Nat) (t t' : Json) (h : normalizeTool i t = some t') :
    normalizeTool i t' = some t' := by
  obtain ⟨fs, ht, h1, h2, h3, h4, h5⟩ := normalizeTool_shape i t t' h
  subst ht
  have g1 := jsTruthy_jsOrJ (getMember t "id") _ (jsTruthy_jstr_append "tool-" (toString i) (by decide))
  have g2 := jsTruthy_jsOrJ (getMember t "name") _ (jsTruthy_jstr_append "Tool " (toString (i + 1)) (by decide))
  have g3 := jsTruthy_jsOrJ (getMember t "description") (.jstr "No description available") (by decide)
  have g4 := jsTruthy_jsOrJ (getMember t "category") (.jstr "utility") (by decide)
  have g5 := jsTruthy_jsOrJ (getMember t "action") (.jstr "execute") (by decide)
  rw [normalizeTool_eq_of_ne_null i (.jobj fs) (by simp)]
  have e1 : getMember (Json.jobj fs) "id" = assocGet fs "id" := rfl
  have e2 : getMember (Json.jobj fs) "name" = assocGet fs "name" := rfl
  have e3 : getMember (Json.jobj fs) "description" = assocGet fs "description" := rfl
  have e4 : getMember (Json.jobj fs) "category" = assocGet fs "category" := rfl
  have e5 : getMember (Json.jobj fs) "action" = assocGet fs "action" := rfl
  have sp : spreadObj (Json.jobj fs) = fs := rfl
  rw [e1, e2, e3, e4, e5, sp, h1, h2, h3, h4, h5,
    jsOrJ_some_of_truthy _ _ g1, jsOrJ_some_of_truthy _ _ g2, jsOrJ_some_of_truthy _ _ g3,
    jsOrJ_some_of_truthy _ _ g4, jsOrJ_some_of_truthy _ _ g5,
    assocSet_of_assocGet fs _ _ h1, assocSet_of_assocGet fs _ _ h2,
    assocSet_of_assocGet fs _ _ h3, assocSet_of_assocGet fs _ _ h4,
    assocSet_of_assocGet fs _ _ h5]

theorem normalizeToolsFrom_cases (i : Nat) (t : Json) (ts : List Json) (ys : List Json)
    (h : normalizeToolsFrom i (t :: ts) = some ys) :
    ∃ t' ts', normalizeTool i t = some t' ∧ normalizeToolsFrom (i + 1) ts = some ts'
      ∧ ys = t' :: ts' := by
  cases ht : normalizeTool i t with
  | none => simp [normalizeToolsFrom, ht] at h
  | some t' =>
    cases hts : normalizeToolsFrom (i + 1) ts with
    | none => simp [normalizeToolsFrom, ht, hts] at h
    | some ts' =>
      refine ⟨t', ts', rfl, rfl, ?_⟩
      simp [normalizeToolsFrom, ht, hts] at h
      exact h.symm

theorem normalizeToolsFrom_idem (i : Nat) (xs ys : List Json)
    (h : normalizeToolsFrom i xs = some ys) : normalizeToolsFrom i ys = some ys := by
  induction xs generalizing i ys with
  | nil =>
    simp [normalizeToolsFrom] at h
    subst h
    rfl
  | cons t ts ih =>
    obtain ⟨t', ts', ht, hts, hy⟩ := normalizeToolsFrom_cases i t ts ys h
    subst hy
    simp [normalizeToolsFrom, normalizeTool_idem i t t' ht, ih (i + 1) ts' hts]

theorem normalizeToolsFrom_truthy (i : Nat) (xs ys : List Json)
    (h : normalizeToolsFrom i xs = some ys) :
    ∀ t ∈ ys, toolFieldsTruthy t = true := by
  induction xs generalizing i ys with
  | nil =>
    simp [normalizeToolsFrom] at h
    subst h
    intro t ht
    simp at ht
  | cons t ts ih =>
    obtain ⟨t', ts', ht, hts, hy⟩ := normalizeToolsFrom_cases i t ts ys h
    subst hy
    intro u hu
    rcases List.mem_cons.mp hu with hu | hu
    · subst hu
      exact normalizeTool_fields_truthy i t u ht
    · exact ih (i + 1) ts' hts u hu

/-- Claim C7: the tool-list normalization of the analyze route is idempotent
— whenever one application succeeds with result `ys`, a second application
maps `ys` to itself. -/
theorem normalize_idempotent (xs ys : List Json) (h : normalizeTools xs = some ys) :
    normalizeTools ys = some ys :=
  normalizeToolsFrom_idem 0 xs ys h

/-- Witness for C7: normalizing the singleton list containing the empty
object fills in all five defaults, and the result is a fixed point. -/
theorem normalize_idempotent_witness :
    normalizeTools [Json.jobj [("id", .jstr "tool-0"), ("name", .jstr "Tool 1"),
      ("description", .jstr "No description available"), ("category", .jstr "utility"),
      ("action", .jstr "execute")]]
    = some [Json.jobj [("id", .jstr "tool-0"), ("name", .jstr "Tool 1"),
      ("description", .jstr "No description available"), ("category", .jstr "utility"),
      ("action", .jstr "execute")]] :=
  normalize_idempotent [Json.jobj []] _ rfl

/-! ## Claims C3 and C4: the parse-and-normalize step of `POST /analyze` -/

theorem ensureTools_fallback (text : String) :
    ensureTools (fallbackData text) = some (fallbackData text) := rfl

theorem extractSpan_of_noBraces (s : String) (h : noBraces s = true) :
    extractSpan s = s := by
  have hf : s.toList.findIdx? (fun c => c = '\x7b') = none := by
    rw [List.findIdx?_eq_none_iff]
    intro c hc
    have := List.all_eq_true.mp h c hc
    simp_all
  simp only [extractSpan, hf]

/-- Claim C3 counterexample: the completion text consisting of the two brace
characters alone is valid JSON missing every required field, yet the route
reports success with a payload that has no tools list at all (the claim
requires a present, non-empty tools list). -/
theorem analyze_missing_fields_cex :
    postAnalyze (some "k") ⟨"https://a.com", none⟩ (.text "\x7b\x7d")
      = ⟨true, 200, some (.jobj []), none, some "Analysis completed successfully"⟩
    ∧ getMember (.jobj []) "tools" = none := ⟨rfl, rfl⟩

/-- Claim C3 (amended): when the extracted span fails `JSON.parse`, the
parse-and-normalize step yields exactly the canned fallback, whose tools list
is present, non-empty, and all-truthy in the five required fields; when the
parse succeeds, any tools list the normalizer produces has every entry truthy
in the five required fields, but the list may be empty or absent. -/
theorem analyze_tools_normalized (text : String) :
    (jsonParse (extractSpan text) = none →
        parseAndNormalize text = some (fallbackData text)
      ∧ getMember (fallbackData text) "tools" = some (.jarr fallbackTools)
      ∧ fallbackTools ≠ []
      ∧ ∀ t ∈ fallbackTools, toolFieldsTruthy t = true)
  ∧ (∀ xs ys, normalizeTools xs = some ys → ∀ t ∈ ys, toolFieldsTruthy t = true) := by
  constructor
  · intro h
    refine ⟨?_, rfl, (List.cons_ne_nil _ _ : fallbackTools ≠ []), by decide⟩
    simp only [parseAndNormalize, h]
    exact ensureTools_fallback text
  · intro xs ys h
    exact normalizeToolsFrom_truthy 0 xs ys h

/-- Witness for C3: a brace-free prose completion fails `JSON.parse`, takes
the fallback branch, and the canned tools list is non-empty. -/
theorem analyze_tools_normalized_witness :
    parseAndNormalize "hello" = some (fallbackData "hello") ∧ fallbackTools ≠ [] :=
  ⟨((analyze_tools_normalized "hello").1 rfl).1,
   ((analyze_tools_normalized "hello").1 rfl).2.2.1⟩

/-- Claim C4 counterexample: the completion text `true` contains no brace
characters, yet `JSON.parse` accepts it, so the canned fallback is not
substituted — the route reports success with the bare value `true` as its
data, which has no tools at all. -/
theorem no_brace_fallback_cex :
    noBraces "true" = true
  ∧ postAnalyze (some "k") ⟨"https://a.com", none⟩ (.text "true")
      = ⟨true, 200, some (.jbool true), none, some "Analysis completed successfully"⟩
  ∧ Json.jbool true ≠ fallbackData "true"
  ∧ getMember (.jbool true) "tools" = none :=
  ⟨rfl, rfl, by simp [fallbackData, jsOrS], rfl⟩

/-- Claim C4 (amended): for every brace-free completion text that also fails
`JSON.parse` (plain prose, but not a bare JSON literal such as `true`), the
route substitutes the canned fallback — whose tools are exactly `navigate`,
`extract-text` and `analyze-structure` — and reports success with status
200. -/
theorem no_brace_unparsable_fallback (apiKey : String) (body : AnalyzeBody) (text : String)
    (hk : ¬ apiKey = "") (hv : (validateUrl body.url).isValid = true)
    (hb : noBraces text = true) (hp : jsonParse text = none) :
    postAnalyze (some apiKey) body (.text text)
      = ⟨true, 200, some (fallbackData text), none, some "Analysis completed successfully"⟩
  ∧ getMember (fallbackData text) "tools" = some (.jarr fallbackTools)
  ∧ fallbackTools.map (fun t => getMember t "id")
      = [some (.jstr "navigate"), some (.jstr "extract-text"), some (.jstr "analyze-structure")] := by
  have hspan : jsonParse (extractSpan text) = none := by
    rw [extractSpan_of_noBraces text hb]
    exact hp
  have hpn : parseAndNormalize text = some (fallbackData text) := by
    simp only [parseAndNormalize, hspan]
    exact ensureTools_fallback text
  refine ⟨?_, rfl, rfl⟩
  simp only [postAnalyze, hv, Bool.not_true, Bool.false_eq_true, if_false, Option.getD_some,
    if_neg hk, hpn]

/-- Witness for C4: prose with no braces yields the fallback success
response. -/
theorem no_brace_unparsable_fallback_witness :
    postAnalyze (some "k") ⟨"https://a.com", none⟩ (.text "plain prose reply")
      = ⟨true, 200, some (fallbackData "plain prose reply"), none,
          some "Analysis completed successfully"⟩ :=
  (no_brace_unparsable_fallback "k" ⟨"https://a.com", none⟩ "plain prose reply"
    (by decide) rfl rfl rfl).1

/-! ## Claim C5: ordering of the credential check -/

/-- Claim C5 counterexample: with the credential absent and an invalid URL in
the body, the route answers 400 with the validation error — not the 500
configuration error the claim requires before any other processing. -/
theorem missing_key_not_before_validation_cex :
    (postAnalyze none ⟨"x", none⟩ (.text "")).status = 400
  ∧ postAnalyze none ⟨"x", none⟩ (.text "")
      = ⟨false, 400, none, some "Please enter a valid URL", none⟩
  ∧ postAnalyze none ⟨"x", none⟩ (.text "")
      ≠ ⟨false, 500, none, some "Anthropic API key not configured", none⟩ := by
  refine ⟨rfl, rfl, ?_⟩
  intro h
  exact absurd (congrArg ApiResp.status h) (by decide)

/-- Claim C5 (amended): the absent credential is answered with the 500
configuration error only after the URL validates; for every request body
whose URL passes validation it is returned regardless of the completion
outcome. -/
theorem missing_key_after_validation (apiKey : Option String) (body : AnalyzeBody)
    (c : Completion) (hk : apiKey.getD "" = "")
    (hv : (validateUrl body.url).isValid = true) :
    postAnalyze apiKey body c
      = ⟨false, 500, none, some "Anthropic API key not configured", none⟩ := by
  simp [postAnalyze, hv, hk]

/-- Witness for C5: unset credential, valid URL. -/
theorem missing_key_after_validation_witness :
    postAnalyze none ⟨"https://a.com", none⟩ (.text "")
      = ⟨false, 500, none, some "Anthropic API key not configured", none⟩ :=
  missing_key_after_validation none ⟨"https://a.com", none⟩ (.text "") rfl rfl

/-! ## Claim C2: navigating to `github.com` -/

/-- Claim C2 evaluation at the failing input: `navigateToMCP` validates the
raw input before sanitizing, so `github.com` is rejected with the validation
error and the predefined-directory path is never reached; moreover the
sanitized form `https://github.com` is not a key of the directory (its keys
are bare domains), while the directory entry the claim expects does carry the
three tools under the bare key. -/
theorem github_navigation_rejected :
    validateUrl "github.com" = ⟨false, ["Please enter a valid URL"]⟩
  ∧ navigateToMCP initState "github.com"
      = { initState with error := some "Please enter a valid URL" }
  ∧ sanitizeUrl "github.com" = "https://github.com"
  ∧ (assocGet mcpDirectory (sanitizeUrl "github.com")).isNone = true
  ∧ ((assocGet mcpDirectory "github.com").map (fun srv => srv.tools))
      = some ["create-repo", "list-repos", "search-code", "manage-issues",
              "create-pr", "view-commits"] := by
  refine ⟨rfl, by decide, rfl, rfl, rfl⟩

/-! ## Claim C10: `GET /tools` with an unknown `serverId` -/

/-- Claim C10 counterexample: the query value `serverId=` (the empty string)
is not a key of the allowlist, yet the route returns the full eight-tool
list, because `if (serverId)` treats the empty string as absent. -/
theorem tools_unknown_server_cex :
    (mcpToolsGET (some "")).success = true
  ∧ (mcpToolsGET (some "")).status = 200
  ∧ assocGet serverToolMap "" = none
  ∧ (mcpToolsGET (some "")).data ≠ []
  ∧ (mcpToolsGET (some "")).data.length = 8 := by
  refine ⟨rfl, rfl, rfl, ?_, rfl⟩
  intro h
  exact absurd (congrArg List.length h) (by decide)

/-- Claim C10 (amended): for every non-empty `serverId` that is not a key of
the allowlist, the route returns success (200) with the empty tool list. -/
theorem tools_unknown_server_empty (sid : String) (h0 : ¬ sid = "")
    (h1 : assocGet serverToolMap sid = none) :
    mcpToolsGET (some sid)
      = ⟨true, 200, [], "Tools retrieved successfully for server " ++ sid⟩ := by
  simp only [mcpToolsGET, h0, h1]
  refine congrArg₂ _ ?_ ?_
  · simp [h1]
  · simp [← String.append_assoc]

/-- Witness for C10: an unknown non-empty server id. -/
theorem tools_unknown_server_empty_witness :
    mcpToolsGET (some "unknown-server")
      = ⟨true, 200, [], "Tools retrieved successfully for server unknown-server"⟩ :=
  tools_unknown_server_empty "unknown-server" (by decide) rfl

/-! ## Claim C6: sanitizer and validator -/

/-- Claim C6 counterexample: the single-space string is non-empty and does
not start with a scheme, yet `sanitizeUrl` returns the empty string — not the
trimmed input with `https://` prepended — and the result fails validation. -/
theorem sanitize_whitespace_cex :
    " " ≠ ""
  ∧ schemeTest " " = false
  ∧ sanitizeUrl " " = ""
  ∧ sanitizeUrl " " ≠ "https://" ++ jsTrim " "
  ∧ (validateUrl (sanitizeUrl " ")).isValid = false := by
  refine ⟨by decide, rfl, rfl, by decide, rfl⟩

theorem dropWhile_head_false {p : Char → Bool} (l : List Char) (c : Char) (r : List Char)
    (h : l.dropWhile p = c :: r) : p c = false := by
  induction l with
  | nil => simp at h
  | cons a t ih =>
    rw [List.dropWhile_cons] at h
    by_cases hp : p a
    · rw [if_pos hp] at h
      exact ih h
    · rw [if_neg hp] at h
      cases h
      simpa using hp

theorem trimRightL_head? (l : List Char) (h : trimRightL l ≠ []) :
    (trimRightL l).head? = l.head? := by
  cases l with
  | nil => simp [trimRightL] at h
  | cons x xs =>
    unfold trimRightL at h ⊢
    rw [List.reverse_cons, List.dropWhile_append] at h ⊢
    by_cases he : (List.dropWhile isJsWhitespace xs.reverse).isEmpty
    · rw [if_pos he] at h ⊢
      rw [List.dropWhile_cons] at h ⊢
      by_cases hx : isJsWhitespace x
      · rw [if_pos hx] at h
        simp at h
      · rw [if_neg hx] at h ⊢
        simp
    · rw [if_neg he] at h ⊢
      rw [List.reverse_append]
      simp

theorem trimL_reverse (l : List Char) :
    (trimL l).reverse = (l.dropWhile isJsWhitespace).reverse.dropWhile isJsWhitespace := by
  unfold trimL trimRightL
  rw [List.reverse_reverse]

theorem trimL_head_not_ws (l : List Char) (c : Char) (r : List Char)
    (h : trimL l = c :: r) : isJsWhitespace c = false := by
  have hne : trimRightL (l.dropWhile isJsWhitespace) ≠ [] := by
    unfold trimL at h
    rw [h]
    simp
  have hh := trimRightL_head? _ hne
  unfold trimL at h
  rw [h] at hh
  cases hd : l.dropWhile isJsWhitespace with
  | nil => rw [hd] at hh; simp at hh
  | cons a t =>
    rw [hd] at hh
    simp at hh
    rw [hh]
    exact dropWhile_head_false l a t hd

theorem trimL_https_fix (u : List Char)
    (hrev : ∀ c r, u.reverse = c :: r → isJsWhitespace c = false) (hu : u ≠ []) :
    trimL ("https://".toList ++ u) = "https://".toList ++ u := by
  have h8 : ("https://".toList ++ u).dropWhile isJsWhitespace = "https://".toList ++ u := by
    rw [show "https://".toList ++ u = 'h' :: ("ttps://".toList ++ u) from rfl,
        List.dropWhile_cons, if_neg (by decide)]
  unfold trimL trimRightL
  rw [h8]
  cases hr : u.reverse with
  | nil => exact absurd (by simpa using congrArg List.reverse hr) hu
  | cons c r =>
    rw [List.reverse_append, hr]
    rw [show (c :: r) ++ "https://".toList.reverse = c :: (r ++ "https://".toList.reverse) from rfl,
        List.dropWhile_cons, if_neg (by simp [hrev c r hr])]
    rw [show c :: (r ++ "https://".toList.reverse) = (c :: r) ++ "https://".toList.reverse from rfl,
        ← hr, ← List.reverse_append, List.reverse_reverse]

theorem lineTerm_ws (c : Char) (h : isLineTerm c = true) : isJsWhitespace c = true := by
  have h1 : c = '\n' ∨ c = '\r' ∨ c.toNat = 0x2028 ∨ c.toNat = 0x2029 := by
    by_contra hc
    push_neg at hc
    obtain ⟨a, b, d, e⟩ := hc
    simp [isLineTerm, a, b, d, e] at h
  obtain h1 | h1 | h1 | h1 := h1
  · subst h1; decide
  · subst h1; decide
  · simp [isJsWhitespace, h1]
  · simp [isJsWhitespace, h1]

theorem jsTrim_eq_self_of (T : String) (h : trimL T.toList = T.toList) : jsTrim T = T := by
  unfold jsTrim
  rw [h]
  cases T
  rfl

theorem isPrefixOf_append_self (p r : List Char) : p.isPrefixOf (p ++ r) = true := by
  induction p with
  | nil => simp [List.isPrefixOf]
  | cons a t ih => simp [List.isPrefixOf, ih]

/-- Claim C6 (amended): for every input whose trimmed form is non-empty and
lacks an `http(s)://` scheme, `sanitizeUrl` returns the trimmed input with
`https://` prepended, and the result passes `validateUrl`. -/
theorem sanitize_prepends_and_validates (s : String)
    (h1 : ¬ jsTrim s = "") (h2 : schemeTest (jsTrim s) = false) :
    sanitizeUrl s = "https://" ++ jsTrim s
  ∧ (validateUrl (sanitizeUrl s)).isValid = true := by
  have hsan : sanitizeUrl s = "https://" ++ jsTrim s := by
    simp [sanitizeUrl, h1, h2]
  refine ⟨hsan, ?_⟩
  rw [hsan]
  have hdata : ("https://" ++ jsTrim s).toList = "https://".toList ++ trimL s.toList := by
    have hd := String.data_append "https://" (jsTrim s)
    simp only [String.toList, jsTrim] at hd ⊢
    exact hd
  have hu : trimL s.toList ≠ [] := by
    intro he
    apply h1
    unfold jsTrim
    rw [he]
  have hrev : ∀ c r, (trimL s.toList).reverse = c :: r → isJsWhitespace c = false := by
    intro c r hcr
    rw [trimL_reverse] at hcr
    exact dropWhile_head_false _ c r hcr
  have hfix : jsTrim ("https://" ++ jsTrim s) = "https://" ++ jsTrim s := by
    apply jsTrim_eq_self_of
    rw [hdata, trimL_https_fix (trimL s.toList) hrev hu]
  have hne : ¬ ("https://" ++ jsTrim s) = "" :=
    append_ne_empty_of_left _ _ (by decide)
  have hpat : urlPatternTest (jsTrim ("https://" ++ jsTrim s)) = true := by
    rw [hfix]
    unfold urlPatternTest
    rw [hdata]
    rw [if_pos (isPrefixOf_append_self _ _)]
    rw [show (8 : Nat) = ("https://".toList).length from rfl, List.drop_left]
    cases hc : trimL s.toList with
    | nil => exact absurd hc hu
    | cons c r =>
      have hcw := trimL_head_not_ws s.toList c r hc
      unfold restOk
      have : isLineTerm c = false := by
        cases hlt : isLineTerm c with
        | false => rfl
        | true => rw [lineTerm_ws c hlt] at hcw; exact absurd hcw (by simp)
      simp [this]
  have htrimne : ¬ jsTrim ("https://" ++ jsTrim s) = "" := by
    rw [hfix]
    exact hne
  simp [validateUrl, hne, htrimne, hpat]

/-- Witness for C6 (amended): `github.com` trims to itself, lacks a scheme,
gains `https://` and validates. -/
theorem sanitize_prepends_and_validates_witness :
    sanitizeUrl "github.com" = "https://" ++ jsTrim "github.com"
  ∧ (validateUrl (sanitizeUrl "github.com")).isValid = true :=
  sanitize_prepends_and_validates "github.com" (by decide) rfl

/-! ## Claim C1: exclusivity of simulated executions -/

theorem reach_execTrace : Reachable execTraceState :=
  Reachable.step (.toolClick "b")
    (Reachable.step .execButton
      (Reachable.step (.toolClick "a")
        (Reachable.step (.connectOk "https://x.com" demoResp)
          (Reachable.step .navigateEnter
            (Reachable.step (.urlEdit "https://x.com") Reachable.init (by decide))
            (by decide))
          (by decide))
        (by decide))
      (by decide))
    (by decide)

/-- Claim C1 counterexample: in the reachable state where tool `a` is
executing and tool `b` is selected, the Execute Tool button is enabled (its
disabled condition compares against the selected tool only), and clicking it
starts a second execution while the first is still in flight. -/
theorem exec_second_execution_cex :
    Reachable execTraceState
  ∧ execTraceState.executingAction = some "a"
  ∧ execTraceState.pending.length = 1
  ∧ execTraceState.selectedTool = some "b"
  ∧ Permitted execTraceState .execButton = true
  ∧ (stepE execTraceState .execButton).executingAction = some "b"
  ∧ (stepE execTraceState .execButton).pending.length = 2 := by
  exact ⟨reach_execTrace, rfl, rfl, rfl, by decide, rfl, rfl⟩

/-- Claim C1 (amended): only re-triggering the tool currently executing is
rejected — the Execute Tool button is disabled exactly when the executing
action equals the selected tool; a different selected tool's trigger is
permitted while an execution is pending. -/
theorem exec_button_disabled_same_tool (s : ViewState) (t : String)
    (h1 : s.selectedTool = some t) (h2 : s.executingAction = some t) :
    Permitted s .execButton = false := by
  simp [Permitted, h1, h2]

/-- Witness for C1 (amended): with the same tool selected and executing, the
trigger is rejected. -/
theorem exec_button_disabled_same_tool_witness :
    Permitted { initState with selectedTool := some "a", executingAction := some "a" } Ev.execButton = false :=
  exec_button_disabled_same_tool _ "a" rfl rfl

/-! ## Claim C9: what a tab switch clears -/

theorem reach_selectTrace : Reachable selectTraceState :=
  Reachable.step .newTab
    (Reachable.step .navigateEnter
      (Reachable.step (.urlEdit "bad")
        (Reachable.step .newTab
          (Reachable.step (.toolClick "a")
            (Reachable.step (.connectOk "https://x.com" demoResp)
              (Reachable.step .navigateEnter
                (Reachable.step (.urlEdit "https://x.com") Reachable.init (by decide))
                (by decide))
              (by decide))
            (by decide))
          (by decide))
        (by decide))
      (by decide))
    (by decide)

/-- Claim C9 counterexample: in a reachable state with tool `a` selected and
the last error set, switching from the third tab to the second (whose url is
empty) leaves both the selected tool and the error in place — `selectTab`
resets neither. -/
theorem select_tab_not_cleared_cex :
    Reachable selectTraceState
  ∧ Permitted selectTraceState (.select 2) = true
  ∧ selectTraceState.activeTab = 3
  ∧ selectTraceState.selectedTool = some "a"
  ∧ selectTraceState.error = some "Please enter a valid URL"
  ∧ (stepE selectTraceState (.select 2)).selectedTool = some "a"
  ∧ (stepE selectTraceState (.select 2)).error = some "Please enter a valid URL" := by
  exact ⟨reach_selectTrace, by decide, rfl, rfl, rfl, rfl, rfl⟩

/-- Claim C9 (amended): `selectTab` never touches the selected tool, the
per-tool form values, the tool results, or the executing marker; the error is
cleared only when the target tab has a non-empty url (reconnecting resets
it); when the target tab is absent or has an empty url the error is kept and
the current server is cleared. -/
theorem select_tab_frame (s : ViewState) (tid : Nat) :
    (stepE s (.select tid)).selectedTool = s.selectedTool
  ∧ (stepE s (.select tid)).formData = s.formData
  ∧ (stepE s (.select tid)).toolResults = s.toolResults
  ∧ (stepE s (.select tid)).executingAction = s.executingAction
  ∧ (∀ t, s.tabs.find? (fun tb => tb.id == tid) = some t → ¬ t.url = "" →
      (stepE s (.select tid)).error = none)
  ∧ (∀ t, s.tabs.find? (fun tb => tb.id == tid) = some t → t.url = "" →
      (stepE s (.select tid)).error = s.error ∧ (stepE s (.select tid)).currentServer = none)
  ∧ (s.tabs.find? (fun tb => tb.id == tid) = none →
      (stepE s (.select tid)).error = s.error ∧ (stepE s (.select tid)).currentServer = none) := by
  refine ⟨?_, ?_, ?_, ?_, ?_, ?_, ?_⟩
  case _ =>
    simp only [stepE]
    unfold applySelectTab connectToMCPServer
    cases s.tabs.find? (fun tb => tb.id == tid) with
    | none => rfl
    | some t =>
      by_cases hu : t.url = ""
      · simp [hu]
      · cases hd : assocGet mcpDirectory t.url <;> simp [hu, hd]
  case _ =>
    simp only [stepE]
    unfold applySelectTab connectToMCPServer
    cases s.tabs.find? (fun tb => tb.id == tid) with
    | none => rfl
    | some t =>
      by_cases hu : t.url = ""
      · simp [hu]
      · cases hd : assocGet mcpDirectory t.url <;> simp [hu, hd]
  case _ =>
    simp only [stepE]
    unfold applySelectTab connectToMCPServer
    cases s.tabs.find? (fun tb => tb.id == tid) with
    | none => rfl
    | some t =>
      by_cases hu : t.url = ""
      · simp [hu]
      · cases hd : assocGet mcpDirectory t.url <;> simp [hu, hd]
  case _ =>
    simp only [stepE]
    unfold applySelectTab connectToMCPServer
    cases s.tabs.find? (fun tb => tb.id == tid) with
    | none => rfl
    | some t =>
      by_cases hu : t.url = ""
      · simp [hu]
      · cases hd : assocGet mcpDirectory t.url <;> simp [hu, hd]
  case _ =>
    intro t ht hu
    simp only [stepE]
    unfold applySelectTab connectToMCPServer
    rw [ht]
    cases hd : assocGet mcpDirectory t.url <;> simp [hu, hd]
  case _ =>
    intro t ht hu
    simp only [stepE]
    unfold applySelectTab connectToMCPServer
    rw [ht]
    simp [hu]
  case _ =>
    intro ht
    simp only [stepE]
    unfold applySelectTab connectToMCPServer
    rw [ht]
    simp

/-- Witness for C9 (amended): selecting the initial tab (empty url) keeps the
error and clears the server. -/
theorem select_tab_frame_witness :
    (stepE initState (.select 1)).selectedTool = initState.selectedTool
  ∧ (stepE initState (.select 1)).error = initState.error
  ∧ (stepE initState (.select 1)).currentServer = none :=
  ⟨(select_tab_frame initState 1).1,
   ((select_tab_frame initState 1).2.2.2.2.2.1 ⟨1, "New Tab", "", true⟩ rfl rfl).1,
   ((select_tab_frame initState 1).2.2.2.2.2.1 ⟨1, "New Tab", "", true⟩ rfl rfl).2⟩

/-! ## Claim C8: tab-list invariant machinery -/

theorem ids_map_pres (f : LegacyTab → LegacyTab) (hid : ∀ t, (f t).id = t.id)
    (l : List LegacyTab) : ids (l.map f) = ids l := by
  induction l with
  | nil => rfl
  | cons a r ih =>
    simp only [ids, List.map_cons] at ih ⊢
    rw [hid a, ih]

theorem activeCount_map_pres (f : LegacyTab → LegacyTab)
    (hact : ∀ t, (f t).active = t.active) (l : List LegacyTab) :
    activeCount (l.map f) = activeCount l := by
  unfold activeCount
  rw [List.countP_map]
  induction l with
  | nil => rfl
  | cons a r ih =>
    rw [List.countP_cons, List.countP_cons, ih]
    simp [Function.comp, hact a]

theorem countP_id_eq_count (l : List LegacyTab) (tid : Nat) :
    l.countP (fun t => t.id == tid) = (ids l).count tid := by
  rw [List.count, ids, List.countP_map]
  rfl

theorem activeCount_setActive (l : List LegacyTab) (tid : Nat)
    (hd : (ids l).Nodup) (hm : tid ∈ ids l) :
    activeCount (l.map (fun tab => { tab with active := tab.id == tid })) = 1 := by
  unfold activeCount
  rw [List.countP_map]
  have he : ((fun (t : LegacyTab) => t.active) ∘
      (fun tab => { tab with active := tab.id == tid })) = (fun (t : LegacyTab) => t.id == tid) := rfl
  rw [he, countP_id_eq_count]
  exact List.count_eq_one_of_mem hd hm

theorem activeIds_setActive_not_mem (l : List LegacyTab) (tid : Nat) (hm : tid ∉ ids l) :
    activeIds (l.map (fun tab => { tab with active := tab.id == tid })) = [] := by
  induction l with
  | nil => rfl
  | cons a r ih =>
    have ha : ¬ a.id = tid := fun h => hm (by simp [ids, h])
    have hr : tid ∉ ids r := fun h => hm (by simp [ids] at h ⊢; exact Or.inr h)
    simp only [activeIds, List.map_cons, List.filter_cons] at ih ⊢
    simp [ha, ih hr]

theorem activeIds_setActive (l : List LegacyTab) (tid : Nat)
    (hd : (ids l).Nodup) (hm : tid ∈ ids l) :
    activeIds (l.map (fun tab => { tab with active := tab.id == tid })) = [tid] := by
  induction l with
  | nil => simp [ids] at hm
  | cons a r ih =>
    have hd' : (ids r).Nodup ∧ a.id ∉ ids r := by
      simp only [ids, List.map_cons, List.nodup_cons] at hd
      exact ⟨hd.2, hd.1⟩
    by_cases ha : a.id = tid
    · subst ha
      have hr0 := activeIds_setActive_not_mem r a.id hd'.2
      simp only [activeIds, List.map_cons, List.filter_cons] at hr0 ⊢
      simp [hr0]
    · have hm' : tid ∈ ids r := by
        simp only [ids, List.map_cons, List.mem_cons] at hm
        rcases hm with h | h
        · exact absurd h.symm ha
        · exact h
      have ihr := ih hd'.1 hm'
      simp only [activeIds, List.map_cons, List.filter_cons] at ihr ⊢
      simp [ha, ihr]

theorem le_maxIds (l : List LegacyTab) (t : LegacyTab) (h : t ∈ l) : t.id ≤ maxIds l := by
  unfold maxIds
  induction l with
  | nil => simp at h
  | cons a r ih =>
    rw [List.map_cons, List.foldr_cons]
    rcases List.mem_cons.mp h with h | h
    · subst h
      exact Nat.le_max_left _ _
    · exact Nat.le_trans (ih h) (Nat.le_max_right _ _)

theorem maxIds_succ_not_mem (l : List LegacyTab) : maxIds l + 1 ∉ ids l := by
  intro hm
  obtain ⟨t, ht, hid⟩ := List.mem_map.mp hm
  have := le_maxIds l t ht
  omega

theorem nodup_ids_filter (l : List LegacyTab) (p : LegacyTab → Bool)
    (h : (ids l).Nodup) : (ids (l.filter p)).Nodup := by
  unfold ids at h ⊢
  exact List.Nodup.sublist (List.Sublist.map (fun t => t.id) (List.filter_sublist l)) h

theorem countP_split (l : List LegacyTab) (p q : LegacyTab → Bool) :
    l.countP p = l.countP (fun a => p a && q a) + l.countP (fun a => p a && !q a) := by
  induction l with
  | nil => rfl
  | cons a r ih =>
    rw [List.countP_cons, List.countP_cons, List.countP_cons, ih]
    by_cases hp : p a <;> by_cases hq : q a <;> simp [hp, hq] <;> omega

theorem applySelectTab_tabs (s : ViewState) (c : List LegacyTab) (tid : Nat) :
    (applySelectTab s c tid).tabs
      = s.tabs.map (fun tab => { tab with active := tab.id == tid }) := by
  unfold applySelectTab connectToMCPServer
  cases hf : c.find? (fun tb => tb.id == tid) with
  | none => rfl
  | some t =>
    by_cases hu : t.url = ""
    · simp [hu]
    · cases hd : assocGet mcpDirectory t.url <;> simp [hu, hd]

theorem applySelectTab_inv (s : ViewState) (c : List LegacyTab) (tid : Nat)
    (hne : s.tabs ≠ []) (hd : (ids s.tabs).Nodup) (hm : tid ∈ ids s.tabs) :
    TabsInv (applySelectTab s c tid) := by
  unfold TabsInv
  rw [applySelectTab_tabs]
  refine ⟨?_, ?_, ?_⟩
  · simp [hne]
  · rw [ids_map_pres (fun tab => { tab with active := tab.id == tid }) (fun t => rfl)]
    exact hd
  · exact activeCount_setActive s.tabs tid hd hm

theorem applyNewTab_inv (s : ViewState) (hd : (ids s.tabs).Nodup) :
    TabsInv (applyNewTab s) := by
  unfold applyNewTab
  apply applySelectTab_inv
  · simp
  · show (ids (s.tabs ++ [⟨maxIds s.tabs + 1, "New Tab", "", false⟩])).Nodup
    unfold ids
    rw [List.map_append]
    rw [List.nodup_append]
    refine ⟨hd, by simp, ?_⟩
    intro x hx hx2
    simp at hx2
    subst hx2
    exact maxIds_succ_not_mem s.tabs hx
  · show maxIds s.tabs + 1 ∈ ids (s.tabs ++ [⟨maxIds s.tabs + 1, "New Tab", "", false⟩])
    unfold ids
    rw [List.map_append]
    simp

theorem filter_close_unique (l : List LegacyTab) (tid : Nat)
    (hd : (ids l).Nodup) (hm : tid ∈ ids l) :
    ∃ u, l.filter (fun t => t.id == tid) = [u] := by
  rw [← List.length_eq_one, ← List.countP_eq_length_filter, countP_id_eq_count]
  exact List.count_eq_one_of_mem hd hm

theorem activeCount_close_inactive (l : List LegacyTab) (tid : Nat) (u : LegacyTab)
    (hact : activeCount l = 1)
    (hfu : l.filter (fun t => t.id == tid) = [u]) (hua : u.active = false) :
    activeCount (l.filter (fun t => !(t.id == tid))) = 1 := by
  unfold activeCount at *
  rw [List.countP_filter]
  have hsplit := countP_split l (fun t => t.active) (fun t => t.id == tid)
  have hz : l.countP (fun t => t.active && (t.id == tid)) = 0 := by
    have : l.countP (fun t => t.active && (t.id == tid))
        = (l.filter (fun t => t.id == tid)).countP (fun t => t.active) := by
      rw [List.countP_filter]
    rw [this, hfu, List.countP_cons, List.countP_nil, hua]
    simp
  have hone : l.countP (fun a => a.active && !(a.id == tid)) = 1 := by omega
  rw [← hone]

theorem map_pres_inv (l : List LegacyTab) (f : LegacyTab → LegacyTab)
    (hid : ∀ t, (f t).id = t.id) (hact : ∀ t, (f t).active = t.active)
    (hne : l ≠ []) (hd : (ids l).Nodup) (hc : activeCount l = 1) :
    l.map f ≠ [] ∧ (ids (l.map f)).Nodup ∧ activeCount (l.map f) = 1 := by
  refine ⟨by simp [hne], ?_, ?_⟩
  · rw [ids_map_pres f hid]
    exact hd
  · rw [activeCount_map_pres f hact]
    exact hc

theorem navigateToMCP_inv (s : ViewState) (u : String) (hinv : TabsInv s) :
    TabsInv (navigateToMCP s u) := by
  obtain ⟨hne, hd, hc⟩ := hinv
  unfold navigateToMCP connectToMCPServer
  by_cases hv : (validateUrl u).isValid = true
  · rw [if_neg (by simp [hv])]
    have hm := map_pres_inv s.tabs
      (fun tab => if tab.active then { tab with url := sanitizeUrl u, title := sanitizeUrl u } else tab)
      (fun t => by by_cases h : t.active <;> simp [h])
      (fun t => by by_cases h : t.active <;> simp [h]) hne hd hc
    cases hk : assocGet mcpDirectory (sanitizeUrl u) with
    | some p =>
      simp only [hk]
      exact ⟨hm.1, hm.2.1, hm.2.2⟩
    | none =>
      simp only [hk]
      exact ⟨hm.1, hm.2.1, hm.2.2⟩
  · rw [if_pos (by simp [Bool.not_eq_true] at hv ⊢; simp [hv])]
    exact ⟨hne, hd, hc⟩

theorem length_filter_not (l : List LegacyTab) (q : LegacyTab → Bool) :
    (l.filter (fun t => !(q t))).length + (l.filter q).length = l.length := by
  induction l with
  | nil => rfl
  | cons a r ih =>
    by_cases h : q a <;> simp [List.filter_cons, h] <;> omega

theorem applyCloseTab_active (s : ViewState) (tid i : Nat)
    (hlen : 1 < s.tabs.length) (hd : (ids s.tabs).Nodup)
    (hfi : s.tabs.findIdx? (fun t => t.id == tid) = some i)
    (hact : ((s.tabs.get? i).map (fun t => t.active)).getD false = true) :
    ∃ nt, (s.tabs.filter (fun t => !(t.id == tid))).get? (i - 1) = some nt
      ∧ applyCloseTab s tid
          = applySelectTab { s with tabs := s.tabs.filter (fun t => !(t.id == tid)) } s.tabs nt.id := by
  obtain ⟨hilt, hpi, _⟩ := List.findIdx?_eq_some_iff_getElem.mp hfi
  have hm : tid ∈ ids s.tabs := by
    have : s.tabs[i].id = tid := by simpa using hpi
    exact this ▸ List.mem_map.mpr ⟨s.tabs[i], List.getElem_mem hilt, rfl⟩
  have hq1 : s.tabs.countP (fun t => t.id == tid) = 1 := by
    rw [countP_id_eq_count]
    exact List.count_eq_one_of_mem hd hm
  have hlenf : (s.tabs.filter (fun t => !(t.id == tid))).length = s.tabs.length - 1 := by
    have hsum := length_filter_not s.tabs (fun t => t.id == tid)
    have hflen : (s.tabs.filter (fun t => t.id == tid)).length = 1 := by
      rw [← List.countP_eq_length_filter]
      exact hq1
    omega
  have hib : i - 1 < (s.tabs.filter (fun t => !(t.id == tid))).length := by omega
  refine ⟨(s.tabs.filter (fun t => !(t.id == tid)))[i - 1], ?_, ?_⟩
  · rw [List.get?_eq_getElem?]
    exact List.getElem?_eq_getElem hib
  · have hwa : closeWasActive s.tabs tid = true := by
      unfold closeWasActive
      rw [hfi]
      exact hact
    unfold applyCloseTab
    rw [if_neg (by omega), if_pos hwa, hfi]
    simp only [Option.getD_some]
    rw [List.get?_eq_getElem?, List.getElem?_eq_getElem hib]

theorem applyCloseTab_inv (s : ViewState) (tid : Nat) (hinv : TabsInv s)
    (hm : tid ∈ ids s.tabs) (hlen : 1 < s.tabs.length) :
    TabsInv (applyCloseTab s tid) := by
  obtain ⟨hne, hd, hc⟩ := hinv
  cases hfi : s.tabs.findIdx? (fun t => t.id == tid) with
  | none =>
    exfalso
    rw [List.findIdx?_eq_none_iff] at hfi
    obtain ⟨t, ht, htid⟩ := List.mem_map.mp hm
    have := hfi t ht
    simp [htid] at this
  | some i =>
    obtain ⟨hilt, hpi, _⟩ := List.findIdx?_eq_some_iff_getElem.mp hfi
    have hq1 : s.tabs.countP (fun t => t.id == tid) = 1 := by
      rw [countP_id_eq_count]
      exact List.count_eq_one_of_mem hd hm
    have hlenf : (s.tabs.filter (fun t => !(t.id == tid))).length = s.tabs.length - 1 := by
      have hsum := length_filter_not s.tabs (fun t => t.id == tid)
      have hflen : (s.tabs.filter (fun t => t.id == tid)).length = 1 := by
        rw [← List.countP_eq_length_filter]
        exact hq1
      omega
    have hfne : s.tabs.filter (fun t => !(t.id == tid)) ≠ [] := by
      intro hnil
      have := congrArg List.length hnil
      simp [hlenf] at this
      omega
    have hfd : (ids (s.tabs.filter (fun t => !(t.id == tid)))).Nodup :=
      nodup_ids_filter s.tabs _ hd
    by_cases hact : ((s.tabs.get? i).map (fun t => t.active)).getD false = true
    · obtain ⟨nt, hnt, heq⟩ := applyCloseTab_active s tid i hlen hd hfi hact
      rw [heq]
      apply applySelectTab_inv _ _ _ hfne hfd
      show nt.id ∈ ids (s.tabs.filter (fun t => !(t.id == tid)))
      apply List.mem_map.mpr
      refine ⟨nt, ?_, rfl⟩
      rw [List.get?_eq_getElem?] at hnt
      exact List.getElem?_mem hnt
    · obtain ⟨u, hfu⟩ := filter_close_unique s.tabs tid hd hm
      have hiu : s.tabs[i] = u := by
        have hmemf : s.tabs[i] ∈ s.tabs.filter (fun t => t.id == tid) :=
          List.mem_filter.mpr ⟨List.getElem_mem hilt, hpi⟩
        rw [hfu] at hmemf
        simpa using hmemf
      have hua : u.active = false := by
        rw [List.get?_eq_getElem?, List.getElem?_eq_getElem hilt, Option.map_some',
          Option.getD_some, hiu] at hact
        simpa using hact
      have hwa : ¬ closeWasActive s.tabs tid = true := by
        unfold closeWasActive
        rw [hfi]
        exact hact
      unfold applyCloseTab
      rw [if_neg (by omega), if_neg hwa]
      exact ⟨hfne, hfd, activeCount_close_inactive s.tabs tid u hc hfu hua⟩

theorem stepE_inv (s : ViewState) (e : Ev) (hinv : TabsInv s)
    (hp : Permitted s e = true) : TabsInv (stepE s e) := by
  cases e with
  | urlEdit v => exact hinv
  | navigateEnter => exact navigateToMCP_inv s s.url hinv
  | popularClick u => exact navigateToMCP_inv s u hinv
  | connectOk u a => exact hinv
  | connectErr u m => exact hinv
  | toolClick t => exact hinv
  | closeTool => exact hinv
  | execButton =>
    show TabsInv (applyExecButton s)
    unfold applyExecButton
    cases s.selectedTool with
    | none => exact hinv
    | some t =>
      cases s.currentServer with
      | none => exact hinv
      | some srv => exact hinv
  | card a =>
    show TabsInv (applyCard s a)
    unfold applyCard
    cases s.currentServer with
    | none => exact hinv
    | some srv => exact hinv
  | execDone t => exact hinv
  | newTab => exact applyNewTab_inv s hinv.2.1
  | close tid =>
    have hp' : 1 < s.tabs.length ∧ tid ∈ ids s.tabs := by
      simp only [Permitted, Bool.and_eq_true, decide_eq_true_eq] at hp
      exact ⟨hp.1, by simpa using hp.2⟩
    exact applyCloseTab_inv s tid hinv hp'.2 hp'.1
  | select tid =>
    have hp' : tid ∈ ids s.tabs := by
      simp only [Permitted] at hp
      simpa using hp
    exact applySelectTab_inv s s.tabs tid hinv.1 hinv.2.1 hp'
  | dismissError => exact hinv
  | formEdit a b v => exact hinv

theorem reachable_inv (s : ViewState) (hs : Reachable s) : TabsInv s := by
  induction hs with
  | init => exact ⟨by simp [initState], by simp [initState, ids], by decide⟩
  | step e hr hp ih => exact stepE_inv _ e ih hp

theorem close_active_left_neighbor (s : ViewState) (tid i : Nat)
    (hinv : TabsInv s)
    (hfi : s.tabs.findIdx? (fun t => t.id == tid) = some i)
    (hact : ((s.tabs.get? i).map (fun t => t.active)).getD false = true)
    (hlen : 1 < s.tabs.length) :
    ∃ nt, (s.tabs.filter (fun t => !(t.id == tid))).get? (i - 1) = some nt
      ∧ activeIds (stepE s (.close tid)).tabs = [nt.id] := by
  obtain ⟨hne, hd, hc⟩ := hinv
  obtain ⟨nt, hnt, heq⟩ := applyCloseTab_active s tid i hlen hd hfi hact
  refine ⟨nt, hnt, ?_⟩
  show activeIds (applyCloseTab s tid).tabs = [nt.id]
  rw [heq, applySelectTab_tabs]
  apply activeIds_setActive
  · exact nodup_ids_filter s.tabs _ hd
  · apply List.mem_map.mpr
    refine ⟨nt, ?_, rfl⟩
    rw [List.get?_eq_getElem?] at hnt
    exact List.getElem?_mem hnt

/-- Claim C8: every reachable state has exactly one active tab, every
UI-permitted tab event preserves that; closing the only remaining tab is a
no-op; closing the active tab leaves exactly the tab at index
`max(0, i - 1)` of the remaining list active (the left neighbour, or the
first remaining tab when the closed tab was first). -/
theorem tab_ops_one_active (s : ViewState) (hs : Reachable s) :
    activeCount s.tabs = 1
  ∧ (∀ e, Permitted s e = true → activeCount (stepE s e).tabs = 1)
  ∧ (∀ tid, s.tabs.length = 1 → stepE s (.close tid) = s)
  ∧ (∀ tid i, s.tabs.findIdx? (fun t => t.id == tid) = some i →
      ((s.tabs.get? i).map (fun t => t.active)).getD false = true →
      1 < s.tabs.length →
      ∃ nt, (s.tabs.filter (fun t => !(t.id == tid))).get? (i - 1) = some nt
        ∧ activeIds (stepE s (.close tid)).tabs = [nt.id]) := by
  have hinv := reachable_inv s hs
  refine ⟨hinv.2.2, ?_, ?_, ?_⟩
  · intro e hp
    exact (stepE_inv s e hinv hp).2.2
  · intro tid hone
    show applyCloseTab s tid = s
    unfold applyCloseTab
    rw [if_pos hone]
  · intro tid i hfi hact hlen
    exact close_active_left_neighbor s tid i hinv hfi hact hlen

/-- Witness for C8: from the initial state, opening a new tab yields again
exactly one active tab, and closing the single initial tab is a no-op. -/
theorem tab_ops_one_active_witness :
    activeCount initState.tabs = 1
  ∧ activeCount (stepE initState .newTab).tabs = 1
  ∧ stepE initState (.close 1) = initState :=
  ⟨(tab_ops_one_active initState Reachable.init).1,
   (tab_ops_one_active initState Reachable.init).2.1 .newTab rfl,
   (tab_ops_one_active initState Reachable.init).2.2.1 1 rfl⟩
